import Mathlib

/-!
Verification development for the code-generation orchestration layer:
the apply route (path policy, file schema, apply engine, package
inference, AI-output parsing), the generation route (provider
selection, package detection), and the run-command route.

The TypeScript sources are embedded shallowly: pure functions become
Lean functions, the streamed SSE protocol becomes an explicit list of
events, the filesystem becomes a map from absolute paths to contents,
and fallible filesystem operations are driven by an explicit fault
oracle.  Node path semantics (posix) are modelled directly:
`path.normalize`, `path.isAbsolute`, `path.basename`, `path.extname`
and `path.resolve` are reimplemented below.  JavaScript regular
expression scans are modelled as explicit left-to-right scanners with
the same backtracking behaviour on the inputs considered here;
whitespace classes are modelled over their ASCII part.
-/

/-- JavaScript `String.prototype.includes` over character lists:
true when `sub` occurs as a contiguous sublist. -/
def hasSubAux (sub : List Char) : List Char → Bool
  | [] => sub.isEmpty
  | c :: r => sub.isPrefixOf (c :: r) || hasSubAux sub r

/-- JavaScript `s.includes(sub)`. -/
def jsIncludes (s sub : String) : Bool :=
  hasSubAux sub.toList s.toList

/-- JavaScript `s.startsWith(pre)`. -/
def strStartsWith (s pre : String) : Bool :=
  pre.toList.isPrefixOf s.toList

/-- JavaScript `s.endsWith(suf)`. -/
def strEndsWith (s suf : String) : Bool :=
  suf.toList.isSuffixOf s.toList

/-- Split a character list on the slash character, keeping empty pieces,
like `p.split(sep)` in Node's path internals. -/
def splitCharsOnSlash : List Char → List (List Char)
  | [] => [[]]
  | c :: rest =>
    let r := splitCharsOnSlash rest
    if c = '/' then [] :: r
    else
      match r with
      | h :: t => (c :: h) :: t
      | [] => [[c]]

/-- Split a string into its slash-separated segments. -/
def splitSlash (s : String) : List String :=
  (splitCharsOnSlash s.toList).map (fun cs => String.mk cs)

/-- Join segments with slashes (inverse direction of `splitSlash`). -/
def joinSlash : List String → String
  | [] => ""
  | h :: t => t.foldl (fun acc x => acc ++ "/" ++ x) h

/-- Join strings with a comma separator, like `array.join(', ')`. -/
def joinComma : List String → String
  | [] => ""
  | h :: t => t.foldl (fun acc x => acc ++ ", " ++ x) h

/-- Core segment resolution of Node's `path.posix` implementation
(`normalizeString`): drops empty and dot segments, resolves dot-dot
segments against the accumulated output, keeping leading dot-dot
segments only when `allowAboveRoot` is true. -/
def normSegs (allowAboveRoot : Bool) (acc : List String) : List String → List String
  | [] => acc
  | seg :: rest =>
    if seg = "" || seg = "." then
      normSegs allowAboveRoot acc rest
    else if seg = ".." then
      if acc ≠ [] ∧ acc.getLast? ≠ some ".." then
        normSegs allowAboveRoot acc.dropLast rest
      else if allowAboveRoot then
        normSegs allowAboveRoot (acc ++ [".."]) rest
      else
        normSegs allowAboveRoot acc rest
    else
      normSegs allowAboveRoot (acc ++ [seg]) rest

/-- Node `path.posix.isAbsolute`. -/
def posixIsAbsolute (p : String) : Bool :=
  strStartsWith p "/"

/-- Node `path.posix.normalize`. -/
def posixNormalize (p : String) : String :=
  if p = "" then "."
  else
    let isAbs := posixIsAbsolute p
    let trail := strEndsWith p "/"
    let body := joinSlash (normSegs (!isAbs) [] (splitSlash p))
    if body = "" then
      if isAbs then "/" else if trail then "./" else "."
    else
      let body := if trail then body ++ "/" else body
      if isAbs then "/" ++ body else body

/-- Node `path.posix.basename` (no extension argument): the last
non-empty slash-separated segment, or the empty string. -/
def posixBasename (p : String) : String :=
  (((splitSlash p).filter (fun seg => seg ≠ "")).getLast?).getD ""

/-- Index of the last dot in a character list, if any. -/
def lastDotIdx (cs : List Char) : Option Nat :=
  (List.range cs.length).foldl
    (fun acc i => if cs.get? i = some '.' then some i else acc) none

/-- Node `path.posix.extname`: the suffix of the basename from its last
dot, except that a basename of dot or dot-dot, a basename without a
dot, or a basename whose only dot is its first character, has no
extension. -/
def posixExtname (p : String) : String :=
  let b := posixBasename p
  if b = "." || b = ".." then ""
  else
    match lastDotIdx b.toList with
    | none => ""
    | some 0 => ""
    | some i => String.mk (b.toList.drop i)

/-- Node `path.posix.resolve root p` for an absolute `root`, as used by
the apply route: join and resolve segments, always yielding an
absolute path without a trailing slash. -/
def posixResolve (root p : String) : String :=
  if posixIsAbsolute p then
    "/" ++ joinSlash (normSegs false [] (splitSlash p))
  else
    "/" ++ joinSlash (normSegs false [] (splitSlash (root ++ "/" ++ p)))

/-- The project root (`SECURITY_CONFIG.projectRoot`, `process.cwd()` in
the source): modelled as a fixed absolute path. -/
def projectRoot : String := "/workspace/project"

/-- `SECURITY_CONFIG.protectedFiles`. -/
def protectedFiles : List String :=
  [".env", ".env.local", ".env.development", ".env.production",
   ".env.test", ".git", ".gitignore", "package-lock.json",
   "yarn.lock", "pnpm-lock.yaml"]

/-- `SECURITY_CONFIG.protectedDirectories`. -/
def protectedDirectories : List String :=
  [".git", "node_modules", ".next", "dist", "build", ".vercel", ".cache"]

/-- `SECURITY_CONFIG.allowedExtensions`. -/
def allowedExtensions : List String :=
  [".js", ".jsx", ".ts", ".tsx",
   ".json", ".html", ".css", ".scss", ".sass",
   ".md", ".mdx", ".txt",
   ".svg", ".png", ".jpg", ".jpeg", ".gif", ".webp",
   ".env.example", ".gitignore.example"]

/-- Verdict of the path-safety check, the source's
`{ safe: boolean; reason?: string }`. -/
inductive PathVerdict where
  | safe : PathVerdict
  | rejected (reason : String) : PathVerdict
deriving DecidableEq, Repr

/-- `isPathSafe` from the apply route: normalize the path first, then
run the traversal, absolute-path, project-root, protected-file,
protected-directory and extension checks in order, each
short-circuiting with its reason. -/
def isPathSafe (filePath : String) : PathVerdict :=
  let normalized := posixNormalize filePath
  if jsIncludes normalized ".." then PathVerdict.rejected "Path traversal detected"
  else if posixIsAbsolute normalized then PathVerdict.rejected "Absolute paths not allowed"
  else if !(strStartsWith (posixResolve projectRoot normalized) projectRoot) then
    PathVerdict.rejected "Path escapes project root"
  else if protectedFiles.contains (posixBasename normalized) then
    PathVerdict.rejected ("Protected file: " ++ posixBasename normalized)
  else
    match (splitSlash normalized).find? (fun seg => protectedDirectories.contains seg) with
    | some seg => PathVerdict.rejected ("Protected directory: " ++ seg)
    | none =>
      let ext := posixExtname normalized
      let hasValidExtension := allowedExtensions.any (fun allowed => strEndsWith normalized allowed)
      if !hasValidExtension && ext ≠ "" then
        PathVerdict.rejected ("File extension not allowed: " ++ ext)
      else PathVerdict.safe

/-- `sanitizeContent` from the apply route: the identity (content is
trusted as-is). -/
def sanitizeContent (content : String) (_filePath : String) : String :=
  content

/-- The `configFiles` list of `normalizeFilePath`. -/
def configFiles : List String :=
  ["package.json", "tsconfig.json", "next.config.js", "next.config.mjs",
   "tailwind.config.js", "tailwind.config.ts", "postcss.config.js", "README.md"]

/-- JavaScript `filePath.replace(/^\/+/, '')`: drop leading slashes. -/
def stripLeadingSlashes (s : String) : String :=
  String.mk (s.toList.dropWhile (fun c => c = '/'))

/-- `normalizeFilePath` from the apply route: strip leading slashes and
prefix `src/` unless the path already starts under a conventional
top-level directory or is a recognized root-level config file. -/
def normalizeFilePath (filePath : String) : String :=
  let normalized := stripLeadingSlashes filePath
  let fileName := posixBasename normalized
  let startsWithValidDir :=
    strStartsWith normalized "src/" ||
    strStartsWith normalized "public/" ||
    strStartsWith normalized "app/" ||
    strStartsWith normalized "pages/" ||
    strStartsWith normalized "components/" ||
    strStartsWith normalized "lib/" ||
    strStartsWith normalized "styles/" ||
    strStartsWith normalized "utils/" ||
    configFiles.contains fileName
  if !startsWithValidDir && !configFiles.contains fileName then
    "src/" ++ normalized
  else normalized

/-- A file record of the apply batch: `{ path, content }`. -/
structure FileRec where
  path : String
  content : String
deriving DecidableEq, Repr

/-- JavaScript `p.replace(/^\.\//, '')`: drop one leading dot-slash. -/
def stripDotSlash (p : String) : String :=
  if strStartsWith p "./" then String.mk (p.toList.drop 2) else p

/-- The third refinement of `FileSchema.path`: the path must already be
in Node-normalized form, up to a leading dot-slash. -/
def pathFormatOk (p : String) : Bool :=
  posixNormalize p = p || posixNormalize p = "./" ++ p || posixNormalize p = stripDotSlash p

/-- Issues produced by the Zod `FileSchema` for one path, in check
order; Zod collects every failing check's message. -/
def fileSchemaIssues (p : String) : List String :=
  (if p.length < 1 then ["File path cannot be empty"] else []) ++
  (if p.length > 500 then ["File path too long"] else []) ++
  (if jsIncludes p ".." then ["Path traversal detected: \"..\" not allowed"] else []) ++
  (if posixIsAbsolute p then ["Absolute paths not allowed"] else []) ++
  (if !pathFormatOk p then ["Invalid path format"] else [])

/-- Issues produced by `ApplyCodeRequestSchema` over the file list:
the array-size bounds followed by every file's path issues. -/
def requestIssues (files : List FileRec) : List String :=
  (if files.length < 1 then ["At least one file is required"] else []) ++
  (if files.length > 100 then ["Too many files in single request"] else []) ++
  files.flatMap (fun f => fileSchemaIssues f.path)

/-- The ASCII part of the JavaScript whitespace class (space, tab,
newline, carriage return, vertical tab, form feed). -/
def isWsChar (c : Char) : Bool :=
  c = ' ' || c = '\t' || c = '\n' || c = '\r' || c = Char.ofNat 11 || c = Char.ofNat 12

/-- JavaScript `String.prototype.trim` over the modelled whitespace. -/
def jsTrim (s : String) : String :=
  String.mk (((s.toList.dropWhile isWsChar).reverse.dropWhile isWsChar).reverse)

/-- The single-quote character. -/
def singleQuoteChar : Char := Char.ofNat 39

/-- A JavaScript string-literal quote character. -/
def isQuoteChar (c : Char) : Bool :=
  c = singleQuoteChar || c = '"'

/-- First index at which `sub` occurs in the list, if any. -/
def idxOfSub (sub : List Char) : List Char → Option Nat
  | [] => if sub.isEmpty then some 0 else none
  | c :: r =>
    if sub.isPrefixOf (c :: r) then some 0
    else (idxOfSub sub r).map (fun n => n + 1)

/-- One attempted match of the import regex
`(?:import|require)\s*\(?['"]([^'"]+)['"]\)?` anchored at the head of
the list: on success, the captured module specifier and the remainder
after the whole match. -/
def tryImportAt (l : List Char) : Option (String × List Char) :=
  let afterTok :=
    if ("import".toList).isPrefixOf l then some (l.drop 6)
    else if ("require".toList).isPrefixOf l then some (l.drop 7)
    else none
  match afterTok with
  | none => none
  | some rest0 =>
    let rest1 := rest0.dropWhile isWsChar
    let rest2 := if rest1.head? = some '(' then rest1.drop 1 else rest1
    match rest2 with
    | [] => none
    | c :: rest3 =>
      if isQuoteChar c then
        let spec := rest3.takeWhile (fun d => !isQuoteChar d)
        match rest3.drop spec.length with
        | [] => none
        | d :: rest4 =>
          if isQuoteChar d && !spec.isEmpty then
            let rest5 := if rest4.head? = some ')' then rest4.drop 1 else rest4
            some (String.mk spec, rest5)
          else none
      else none

/-- Global scan of the import regex: try a match at every position,
resuming after each full match. -/
def importScanAux : Nat → List Char → List String
  | 0, _ => []
  | _, [] => []
  | Nat.succ fuel, c :: rest =>
    match tryImportAt (c :: rest) with
    | some (spec, rest2) => spec :: importScanAux fuel rest2
    | none => importScanAux fuel rest

/-- All module specifiers captured by the import regex in one file
content, in match order. -/
def importSpecifiers (content : String) : List String :=
  importScanAux content.toList.length content.toList

/-- Append an element unless already present: JavaScript `Set.add` and
the `includes`-guarded `push`, keeping insertion order. -/
def setAdd (l : List String) (x : String) : List String :=
  if l.contains x then l else l ++ [x]

/-- The built-in exclusion list of the apply route's `extractPackages`. -/
def applyExclusions : List String := ["react", "react-dom", "next"]

/-- The exclusion test of the apply route's `extractPackages`. -/
def excludedApply (s : String) : Bool :=
  strStartsWith s "." || strStartsWith s "/" || strStartsWith s "@/" ||
  applyExclusions.contains s

/-- Package-identifier rule shared by both routes: scoped specifiers
keep their first two slash-separated segments, unscoped ones their
first segment. -/
def pkgName (s : String) : String :=
  if strStartsWith s "@" then joinSlash ((splitSlash s).take 2)
  else ((splitSlash s).headD "")

/-- `extractPackages` from the apply route: scan every file's imports,
skip excluded specifiers, and collect package identifiers into an
insertion-ordered set. -/
def extractPackages (files : List FileRec) : List String :=
  files.foldl
    (fun acc f =>
      (importSpecifiers f.content).foldl
        (fun acc2 s => if excludedApply s then acc2 else setAdd acc2 (pkgName s))
        acc)
    []

/-- The built-in exclusion list of the generation route's package
detection. -/
def genBuiltins : List String :=
  ["fs", "path", "http", "https", "crypto", "os", "util", "events"]

/-- Package detection of the generation route: same import scan and
identifier rule, but the exclusion test covers only relative markers,
absolute markers and the Node built-in list. -/
def genDetectPackages (files : List FileRec) : List String :=
  files.foldl
    (fun acc f =>
      (importSpecifiers f.content).foldl
        (fun acc2 pkg =>
          if !strStartsWith pkg "." && !strStartsWith pkg "/" && !genBuiltins.contains pkg then
            setAdd acc2 (pkgName pkg)
          else acc2)
        acc)
    []

/-- Deduplication preserving first occurrences. -/
def dedupKeepFirst (l : List String) : List String :=
  l.foldl setAdd []

/-- Modelled from the spec: the package-inference contract as the spec
states it — drop every specifier starting with a relative marker, an
absolute marker or the local alias, or equal to a caller-supplied
exclusion; name scoped specifiers by their first two segments and
unscoped ones by their first; deduplicate keeping insertion order. -/
def inferSpec (exclusions : List String) (files : List FileRec) : List String :=
  dedupKeepFirst
    (((files.flatMap (fun f => importSpecifiers f.content)).filter
        (fun s => !(strStartsWith s "." || strStartsWith s "/" ||
                    strStartsWith s "@/" || exclusions.contains s))).map pkgName)

/-- `\w` word characters. -/
def isWordChar (c : Char) : Bool :=
  c.isAlphanum || c = '_'

/-- One attempted match of the tagged-block grammar
`<file\s+path="([^"]+)">([\s\S]*?)<\/file>` with the literal `<file`
already consumed: on success, the path, the trimmed content, and the
remainder after the closing tag. -/
def parseTagAfterOpen (l : List Char) : Option (String × String × List Char) :=
  let ws := l.takeWhile isWsChar
  if ws.isEmpty then none
  else
    let l1 := l.drop ws.length
    if ("path=\"".toList).isPrefixOf l1 then
      let l2 := l1.drop 6
      let pathChars := l2.takeWhile (fun c => c ≠ '"')
      if pathChars.isEmpty then none
      else
        match l2.drop pathChars.length with
        | '"' :: '>' :: l4 =>
          match idxOfSub ("</file>".toList) l4 with
          | none => none
          | some i =>
            some (String.mk pathChars, jsTrim (String.mk (l4.take i)), l4.drop (i + 7))
        | _ => none
    else none

/-- Global scan of the tagged-block grammar. -/
def tagScanAux : Nat → List Char → List (String × String)
  | 0, _ => []
  | _, [] => []
  | Nat.succ fuel, c :: rest =>
    if ("<file".toList).isPrefixOf (c :: rest) then
      match parseTagAfterOpen ((c :: rest).drop 5) with
      | some (p, cont, rest2) => (p, cont) :: tagScanAux fuel rest2
      | none => tagScanAux fuel rest
    else tagScanAux fuel rest

/-- All `(path, trimmed content)` pairs produced by the tagged-block
grammar. -/
def extractTagBlocks (s : String) : List (String × String) :=
  tagScanAux s.toList.length s.toList

/-- Attempt the optional `path="([^"]+)"` group followed by the
mandatory newline of the fenced grammar. -/
def tryPathAttrAt (t : List Char) : Option (String × List Char) :=
  if ("path=\"".toList).isPrefixOf t then
    let t1 := t.drop 6
    let pcs := t1.takeWhile (fun c => c ≠ '"')
    if pcs.isEmpty then none
    else
      match t1.drop pcs.length with
      | '"' :: '\n' :: t2 => some (String.mk pcs, t2)
      | _ => none
  else none

/-- Backtracking alternatives of the fenced grammar
`(?:\w+)?\s*(?:path="([^"]+)")?\n` after the opening triple backtick,
in engine order: longest optional word first, then longest whitespace
run, the path group present before absent.  Each alternative yields
the optional captured path and the start of the block content. -/
def fenceChoices (afterTicks : List Char) : List (Option String × List Char) :=
  let wMax := (afterTicks.takeWhile isWordChar).length
  ((List.range (wMax + 1)).reverse).flatMap (fun wLen =>
    let afterWord := afterTicks.drop wLen
    let wsMax := (afterWord.takeWhile isWsChar).length
    ((List.range (wsMax + 1)).reverse).flatMap (fun wsLen =>
      let t := afterWord.drop wsLen
      (match tryPathAttrAt t with
       | some (p, rest) => [(some p, rest)]
       | none => []) ++
      (match t with
       | '\n' :: t2 => [(none, t2)]
       | _ => [])))

/-- First alternative whose lazy content reaches a closing triple
backtick: the optional path, the trimmed content, and the remainder
after the closing fence. -/
def firstFenceMatch : List (Option String × List Char) → Option (Option String × String × List Char)
  | [] => none
  | (po, contentStart) :: rest =>
    match idxOfSub ("```".toList) contentStart with
    | some i =>
      some (po, jsTrim (String.mk (contentStart.take i)), contentStart.drop (i + 3))
    | none => firstFenceMatch rest

/-- Global scan of the fenced grammar; blocks without a path attribute
are matched and skipped (they advance the scan but produce no record). -/
def fenceScanAux : Nat → List Char → List (String × String)
  | 0, _ => []
  | _, [] => []
  | Nat.succ fuel, c :: rest =>
    if ("```".toList).isPrefixOf (c :: rest) then
      match firstFenceMatch (fenceChoices ((c :: rest).drop 3)) with
      | some (some p, cont, rest2) => (p, cont) :: fenceScanAux fuel rest2
      | some (none, _, rest2) => fenceScanAux fuel rest2
      | none => fenceScanAux fuel rest
    else fenceScanAux fuel rest

/-- All `(path, trimmed content)` pairs produced by the fenced grammar. -/
def extractFencedBlocks (s : String) : List (String × String) :=
  fenceScanAux s.toList.length s.toList

/-- Lookup in an insertion-ordered association list (JavaScript
`Map.get` and `Map.has`). -/
def alookup (p : String) : List (String × String) → Option String
  | [] => none
  | (q, c) :: r => if q = p then some c else alookup p r

/-- `Map.set` under the longest-wins rule of `parseAIGeneratedCode`:
a new path is appended, an existing path is overwritten in place only
when the new content is strictly longer. -/
def mergeInto (m : List (String × String)) (p c : String) : List (String × String) :=
  match alookup p m with
  | none => m ++ [(p, c)]
  | some c0 =>
    if c.length > c0.length then
      m.map (fun kv => if kv.1 = p then (p, c) else kv)
    else m

/-- Fold a pair list into the deduplicating map. -/
def mergeAll (l : List (String × String)) : List (String × String) :=
  l.foldl (fun m pc => mergeInto m pc.1 pc.2) []

/-- `parseAIGeneratedCode` from the apply route: both grammars are run
over the whole text, tagged blocks first, and merged under the
longest-wins rule; the file list is the map in insertion order. -/
def parseAIGeneratedCode (generatedCode : String) : List FileRec :=
  (mergeAll (extractTagBlocks generatedCode ++ extractFencedBlocks generatedCode)).map
    (fun pc => { path := pc.1, content := pc.2 })

/-- The same parse with the two grammar passes evaluated in the other
order (fenced blocks first), for the order-independence question. -/
def parseAIGeneratedCodeSwapped (generatedCode : String) : List FileRec :=
  (mergeAll (extractFencedBlocks generatedCode ++ extractTagBlocks generatedCode)).map
    (fun pc => { path := pc.1, content := pc.2 })

/-- Contents recorded for one path in a pair list, in order. -/
def contentsFor (p : String) (l : List (String × String)) : List String :=
  (l.filter (fun pc => pc.1 = p)).map (fun pc => pc.2)

/-- `ApplyResults` from the apply route. -/
structure ApplyResults where
  filesCreated : List String
  filesUpdated : List String
  filesSkipped : List String
  errors : List String
  packages : List String
deriving DecidableEq, Repr

/-- One SSE progress frame of the apply route (`ProgressMessage`),
restricted to the fields each variant actually carries. -/
inductive Ev where
  | status (message : String)
  | fileProgress (current total : Nat) (fileName action : String)
  | fileComplete (fileName action : String)
  | fileError (fileName error : String)
  | complete (message : String) (results : ApplyResults)
  | errorEv (error : String)
deriving DecidableEq, Repr

/-- The filesystem, keyed by absolute path. -/
def FS : Type := String → Option String

/-- The fault oracle for the two filesystem operations of the per-file
loop that can raise (`ensureDirectory` via `fs.mkdir`, and
`writeFile`), keyed by the normalized path they are called with; `some
msg` means the operation throws with that message.  `fileExists`
cannot raise: it catches its own `fs.access` failure and returns
false. -/
structure Faults where
  ensureDirErr : String → Option String
  writeErr : String → Option String

/-- The fault-free world. -/
def noFaults : Faults := { ensureDirErr := fun _ => none, writeErr := fun _ => none }

/-- The empty filesystem. -/
def emptyFS : FS := fun _ => none

/-- Absolute target of a normalized path
(`path.resolve(SECURITY_CONFIG.projectRoot, filePath)`). -/
def resolveKey (p : String) : String :=
  posixResolve projectRoot p

/-- The body of the per-file loop of the apply route's POST handler:
normalize, emit validating progress, classify, then existence check,
action progress, directory creation, write, bookkeeping and terminal
event, with the catch block turning a raised operation into an error
entry plus a file-error event. -/
def processFile (faults : Faults) (fs : FS) (res : ApplyResults) (f : FileRec)
    (cur total : Nat) : FS × ApplyResults × List Ev :=
  match isPathSafe (normalizeFilePath f.path) with
  | PathVerdict.rejected reason =>
    (fs,
     { res with errors := res.errors ++ [normalizeFilePath f.path ++ ": " ++ reason] },
     [Ev.fileProgress cur total (normalizeFilePath f.path) "validating",
      Ev.fileError (normalizeFilePath f.path) reason])
  | PathVerdict.safe =>
    match faults.ensureDirErr (normalizeFilePath f.path) with
    | some m =>
      (fs,
       { res with errors := res.errors ++ [f.path ++ ": " ++ m] },
       [Ev.fileProgress cur total (normalizeFilePath f.path) "validating",
        Ev.fileProgress cur total (normalizeFilePath f.path)
          (if (fs (resolveKey (normalizeFilePath f.path))).isSome then "updating" else "creating"),
        Ev.fileError f.path m])
    | none =>
      match faults.writeErr (normalizeFilePath f.path) with
      | some m =>
        (fs,
         { res with errors := res.errors ++ [f.path ++ ": " ++ m] },
         [Ev.fileProgress cur total (normalizeFilePath f.path) "validating",
          Ev.fileProgress cur total (normalizeFilePath f.path)
            (if (fs (resolveKey (normalizeFilePath f.path))).isSome then "updating" else "creating"),
          Ev.fileError f.path m])
      | none =>
        ((fun k => if k = resolveKey (normalizeFilePath f.path)
                   then some (sanitizeContent f.content (normalizeFilePath f.path))
                   else fs k),
         (if (fs (resolveKey (normalizeFilePath f.path))).isSome
          then { res with filesUpdated := res.filesUpdated ++ [normalizeFilePath f.path] }
          else { res with filesCreated := res.filesCreated ++ [normalizeFilePath f.path] }),
         [Ev.fileProgress cur total (normalizeFilePath f.path) "validating",
          Ev.fileProgress cur total (normalizeFilePath f.path)
            (if (fs (resolveKey (normalizeFilePath f.path))).isSome then "updating" else "creating"),
          Ev.fileComplete (normalizeFilePath f.path)
            (if (fs (resolveKey (normalizeFilePath f.path))).isSome then "updated" else "created")])

/-- The sequential per-file loop, threading the filesystem and the
result tally and concatenating each file's events in input order. -/
def applyLoop (faults : Faults) (fs : FS) (res : ApplyResults) :
    List FileRec → Nat → Nat → FS × ApplyResults × List Ev
  | [], _, _ => (fs, res, [])
  | f :: rest, cur, total =>
    let out := processFile faults fs res f cur total
    let out2 := applyLoop faults out.1 out.2.1 rest (cur + 1) total
    (out2.1, out2.2.1, out.2.2 ++ out2.2.2)

/-- The same loop, returning each file's event segment separately. -/
def applySegs (faults : Faults) (fs : FS) (res : ApplyResults) :
    List FileRec → Nat → Nat → List (List Ev)
  | [], _, _ => []
  | f :: rest, cur, total =>
    let out := processFile faults fs res f cur total
    out.2.2 :: applySegs faults out.1 out.2.1 rest (cur + 1) total

/-- The initial `results` record of the apply handler. -/
def applyRes0 (files : List FileRec) (pkgs : Option (List String)) : ApplyResults :=
  { filesCreated := [], filesUpdated := [], filesSkipped := [], errors := [],
    packages := pkgs.getD (extractPackages files) }

/-- The completion message of the apply handler. -/
def applyRunMsg (res : ApplyResults) : String :=
  "Applied " ++ toString (res.filesCreated.length + res.filesUpdated.length) ++
  " file(s) successfully" ++
  (if res.errors.length > 0 then ", " ++ toString res.errors.length ++ " error(s)" else "")

/-- The streamed run over a validated batch: the status frame, the
per-file loop, and the single complete frame carrying the tally. -/
def applyRun (faults : Faults) (fs : FS) (files : List FileRec)
    (pkgs : Option (List String)) : FS × ApplyResults × List Ev :=
  let out := applyLoop faults fs (applyRes0 files pkgs) files 1 files.length
  (out.1, out.2.1,
   Ev.status ("Processing " ++ toString files.length ++ " files...") :: out.2.2 ++
     [Ev.complete (applyRunMsg out.2.1) out.2.1])

/-- The apply route's POST handler over an already-parsed body: schema
validation first — a failure emits a single error frame and closes the
channel with no filesystem effect — then the streamed run. -/
def postApply (faults : Faults) (fs : FS) (files : List FileRec)
    (pkgs : Option (List String)) : FS × Option ApplyResults × List Ev :=
  if requestIssues files = [] then
    let out := applyRun faults fs files pkgs
    (out.1, some out.2.1, out.2.2)
  else
    (fs, none, [Ev.errorEv ("Validation failed: " ++ joinComma (requestIssues files))])

/-- A generation provider. -/
inductive Prov where
  | google : Prov
  | groq : Prov
deriving DecidableEq, Repr

/-- The other provider. -/
def otherProv : Prov → Prov
  | Prov.google => Prov.groq
  | Prov.groq => Prov.google

/-- `MODEL_CONFIG` from the generation route: model key to provider and
provider-side model string. -/
def modelConfig (m : String) : Option (Prov × String) :=
  if m = "gemini-2.0-flash-exp" then some (Prov.google, "gemini-2.0-flash-exp")
  else if m = "gemini-1.5-pro" then some (Prov.google, "gemini-1.5-pro-002")
  else if m = "gemini-1.5-flash" then some (Prov.google, "gemini-1.5-flash-002")
  else if m = "llama-3.3-70b" then some (Prov.groq, "llama-3.3-70b-versatile")
  else if m = "llama-3.1-70b" then some (Prov.groq, "llama-3.1-70b-versatile")
  else if m = "mixtral-8x7b" then some (Prov.groq, "mixtral-8x7b-32768")
  else none

/-- Provider name as it appears in the request body and error text. -/
def provName : Prov → String
  | Prov.google => "google"
  | Prov.groq => "groq"

/-- Which of the two providers has an API key configured. -/
def provConfigured (hasGoogle hasGroq : Bool) : Prov → Bool
  | Prov.google => hasGoogle
  | Prov.groq => hasGroq

/-- Provider selection of the generation route's POST handler, from
`initializeProviders` through the final model resolution: the result
is either the selected provider and model string, or an error message
with its HTTP status, produced before any streaming begins.
`hasGoogle` and `hasGroq` state which API keys are configured. -/
def selectProvider (hasGoogle hasGroq : Bool) (provider : Option Prov)
    (model : String) : Except (String × Nat) (Prov × String) :=
  if !hasGoogle && !hasGroq then
    Except.error ("At least one AI provider (Gemini or Groq) must be configured with valid API keys", 500)
  else
    let configured : Prov → Bool := provConfigured hasGoogle hasGroq
    let step1 : Except (String × Nat) (Prov × Option String) :=
      match provider with
      | some p =>
        if configured p then Except.ok (p, none)
        else Except.error ("Provider " ++ "\x27" ++ provName p ++ "\x27" ++
          " is not configured. Please set the appropriate API key.", 400)
      | none =>
        match modelConfig model with
        | some (cp, cm) => Except.ok (cp, some cm)
        | none => Except.ok ((if hasGoogle then Prov.google else Prov.groq), some model)
    match step1 with
    | Except.error e => Except.error e
    | Except.ok (sp, sm) =>
      let step2 : Except (String × Nat) (Prov × Option String) :=
        if configured sp then Except.ok (sp, sm)
        else if configured (otherProv sp) then Except.ok (otherProv sp, sm)
        else Except.error ("Selected provider " ++ "\x27" ++ provName sp ++ "\x27" ++
          " is not configured", 500)
      match step2 with
      | Except.error e => Except.error e
      | Except.ok (fp, fm) =>
        match fm with
        | some m => Except.ok (fp, m)
        | none =>
          match modelConfig model with
          | some (_, cm) => Except.ok (fp, cm)
          | none => Except.ok (fp, model)

/-- Outcome of one sandbox command (`runCommand` resolved, with its
outputs awaited). -/
structure CmdResult where
  stdout : String
  stderr : String
  exitCode : Int
deriving DecidableEq, Repr

/-- JSON response of the run-command route. -/
structure RunResp where
  statusCode : Nat
  success : Bool
  errorMsg : Option String
  output : Option String
  exitCode : Option Int
  message : Option String
deriving DecidableEq, Repr

/-- JavaScript falsiness of the `command` body field restricted to
string-or-absent values. -/
def jsFalsyStr (c : Option String) : Bool :=
  match c with
  | none => true
  | some s => s = ""

/-- Whitespace-run split of a trimmed command, JavaScript
`command.trim().split(/\s+/)` (an empty string splits to one empty
piece). -/
def jsSplitWs (s : String) : List String :=
  if s = "" then [""]
  else
    ((s.toList.splitOnP isWsChar).filter (fun w => !w.isEmpty)).map String.mk

/-- Terminal output formatting of the run-command route. -/
def formatCmdOutput (r : CmdResult) : String :=
  String.intercalate "\n"
    (([if jsTrim r.stdout ≠ "" then r.stdout else "",
       if jsTrim r.stderr ≠ "" then "ERROR:\n" ++ r.stderr else "",
       "\nProcess finished with exit code: " ++ toString r.exitCode]).filter
      (fun s => s ≠ ""))

/-- The run-command route's POST handler: a falsy `command` or a
missing sandbox session is a 400 failure; an exception while running
is a 500 failure; otherwise HTTP 200 with `success: true` regardless
of the command's exit code. -/
def runCommandRoute (command : Option String) (hasSandbox : Bool)
    (exec : String → List String → Except String CmdResult) : RunResp :=
  if jsFalsyStr command then
    { statusCode := 400, success := false, errorMsg := some "Command is required",
      output := none, exitCode := none, message := none }
  else if !hasSandbox then
    { statusCode := 400, success := false,
      errorMsg := some "No active sandbox session found. Please refresh or restart the preview.",
      output := none, exitCode := none, message := none }
  else
    let parts := jsSplitWs (jsTrim (command.getD ""))
    match exec (parts.headD "") parts.tail with
    | Except.error e =>
      { statusCode := 500, success := false, errorMsg := some e,
        output := none, exitCode := none, message := none }
    | Except.ok r =>
      { statusCode := 200, success := true, errorMsg := none,
        output := some (formatCmdOutput r), exitCode := some r.exitCode,
        message := some (if r.exitCode = 0 then "Success" else "Command failed") }

/-- Absolute write target of a batch file. -/
def targetKey (f : FileRec) : String :=
  resolveKey (normalizeFilePath f.path)

/-- Terminal per-file events. -/
def isFileTerminal : Ev → Bool
  | Ev.fileComplete _ _ => true
  | Ev.fileError _ _ => true
  | _ => false

/-- Terminal batch events. -/
def isBatchTerminal : Ev → Bool
  | Ev.complete _ _ => true
  | Ev.errorEv _ => true
  | _ => false

/-- The three admissible event sequences for one file: a validating
progress frame followed directly by a file-error (policy rejection),
or a validating frame, an action frame, and a file-error (raised
operation), or a validating frame, an action frame, and a
file-complete. -/
def fileTraceShape (seg : List Ev) : Prop :=
  (∃ cur total name reason,
     seg = [Ev.fileProgress cur total name "validating",
            Ev.fileError name reason]) ∨
  (∃ cur total name act ename err,
     (act = "creating" ∨ act = "updating") ∧
     seg = [Ev.fileProgress cur total name "validating",
            Ev.fileProgress cur total name act,
            Ev.fileError ename err]) ∨
  (∃ cur total name act act2,
     (act = "creating" ∨ act = "updating") ∧
     (act2 = "created" ∨ act2 = "updated") ∧
     seg = [Ev.fileProgress cur total name "validating",
            Ev.fileProgress cur total name act,
            Ev.fileComplete name act2])

/-- One step of the longest-wins choice: the incumbent content, if
any, is replaced only by a strictly longer candidate. -/
def bestOf (b : Option String) (c : String) : Option String :=
  match b with
  | none => some c
  | some c0 => some (if c.length > c0.length then c else c0)

/-- The spec's isolation scenario: three files, the second with a
protected target. -/
def isolationBatch : List FileRec :=
  [⟨"src/a.txt", "hi"⟩, ⟨".env", "k=v"⟩, ⟨"src/c.css", "x"⟩]

theorem mem_requestIssues_of_mem_fileIssues {files : List FileRec} {f : FileRec} {s : String}
    (hf : f ∈ files) (hs : s ∈ fileSchemaIssues f.path) : s ∈ requestIssues files := by
  unfold requestIssues
  exact List.mem_append.mpr (Or.inr (List.mem_flatMap.mpr ⟨f, hf, hs⟩))

theorem postApply_reject (faults : Faults) (fs : FS) (files : List FileRec)
    (pkgs : Option (List String)) (h : requestIssues files ≠ []) :
    postApply faults fs files pkgs =
      (fs, none, [Ev.errorEv ("Validation failed: " ++ joinComma (requestIssues files))]) := by
  unfold postApply
  simp [h]

/-- C2 (counterexample): the claim says the traversal check fires on
every path containing a parent-directory segment, including
`src/a/../b.ts`; the code normalizes first, so that path passes the
traversal check and in fact every check. -/
theorem c2_counterexample : isPathSafe "src/a/../b.ts" = PathVerdict.safe := by decide

/-- C2 (amended): the traversal check is the first, short-circuiting
check of `isPathSafe`, but it is evaluated on the normalized path: for
every path whose normalization still contains a dot-dot sequence, the
classifier rejects with the traversal reason. -/
theorem c2_amended_traversal_after_normalize (p : String)
    (h : jsIncludes (posixNormalize p) ".." = true) :
    isPathSafe p = PathVerdict.rejected "Path traversal detected" := by
  simp [isPathSafe, h]

theorem c2_witness :
    jsIncludes (posixNormalize "../x") ".." = true ∧
    isPathSafe "../x" = PathVerdict.rejected "Path traversal detected" :=
  ⟨by decide, c2_amended_traversal_after_normalize "../x" (by decide)⟩

/-- C9 (counterexample): the claim lists paths with a trailing
separator among those the schema rejects as not normalized; Node's
normalization preserves a trailing slash, so such a path passes the
format refinement and the whole file schema. -/
theorem c9_counterexample : pathFormatOk "src/a/" = true ∧ fileSchemaIssues "src/a/" = [] := by
  exact ⟨by decide, by decide⟩

/-- C9 (amended): the file schema rejects with reason Invalid path
format every path whose normalization differs from the path itself by
more than a leading dot-slash — for example a doubled separator or an
interior dot segment — and such a path in any batch rejects the whole
batch before per-file processing begins; a path whose only deviation is
a trailing separator is accepted, because normalization preserves it. -/
theorem c9_amended_format_refinement :
    (∀ p, posixNormalize p ≠ p → posixNormalize p ≠ "./" ++ p →
      posixNormalize p ≠ stripDotSlash p →
      "Invalid path format" ∈ fileSchemaIssues p) ∧
    "Invalid path format" ∈ fileSchemaIssues "src//a.ts" ∧
    "Invalid path format" ∈ fileSchemaIssues "src/./a.ts" ∧
    (∀ faults fs files pkgs f, f ∈ files →
      "Invalid path format" ∈ fileSchemaIssues f.path →
      postApply faults fs files pkgs =
        (fs, none, [Ev.errorEv ("Validation failed: " ++ joinComma (requestIssues files))])) := by
  refine ⟨?_, by decide, by decide, ?_⟩
  · intro p h1 h2 h3
    have hfmt : pathFormatOk p = false := by
      simp [pathFormatOk, h1, h2, h3]
    unfold fileSchemaIssues
    refine List.mem_append.mpr (Or.inr ?_)
    simp [hfmt]
  · intro faults fs files pkgs f hf hmem
    exact postApply_reject faults fs files pkgs
      (List.ne_nil_of_mem (mem_requestIssues_of_mem_fileIssues hf hmem))

theorem c9_witness :
    posixNormalize "a//b.ts" ≠ "a//b.ts" ∧
    posixNormalize "a//b.ts" ≠ "./" ++ "a//b.ts" ∧
    posixNormalize "a//b.ts" ≠ stripDotSlash "a//b.ts" ∧
    "Invalid path format" ∈ fileSchemaIssues "a//b.ts" :=
  ⟨by decide, by decide, by decide,
   c9_amended_format_refinement.1 "a//b.ts" (by decide) (by decide) (by decide)⟩

/-- C10 (counterexample): the claim says HTTP 400 with success false
happens exactly when the command field is missing or no sandbox
session exists; an empty-string command is present yet falsy, and the
route returns 400 for it even with an active sandbox. -/
theorem c10_counterexample :
    ¬ ((((runCommandRoute (some "") true (fun _ _ => Except.ok ⟨"", "", 0⟩)).statusCode = 400 ∧
         (runCommandRoute (some "") true (fun _ _ => Except.ok ⟨"", "", 0⟩)).success = false) ↔
        ((some "" : Option String) = none ∨ (true : Bool) = false))) := by
  decide

/-- C10 (amended): the route returns HTTP 400 with success false
exactly when the command field is missing or empty (JavaScript falsy)
or no active sandbox session exists; whenever the sandbox executes the
command, the route returns HTTP 200 with success true regardless of
the exit code, reflecting failure only in the message and exitCode
fields. -/
theorem c10_amended_status_contract :
    (∀ command hasSandbox exec,
      ((runCommandRoute command hasSandbox exec).statusCode = 400 ∧
       (runCommandRoute command hasSandbox exec).success = false) ↔
      (jsFalsyStr command = true ∨ hasSandbox = false)) ∧
    (∀ command hasSandbox exec r,
      jsFalsyStr command = false → hasSandbox = true →
      exec ((jsSplitWs (jsTrim (command.getD ""))).headD "")
           ((jsSplitWs (jsTrim (command.getD ""))).tail) = Except.ok r →
      (runCommandRoute command hasSandbox exec).statusCode = 200 ∧
      (runCommandRoute command hasSandbox exec).success = true ∧
      (runCommandRoute command hasSandbox exec).exitCode = some r.exitCode ∧
      (runCommandRoute command hasSandbox exec).message =
        some (if r.exitCode = 0 then "Success" else "Command failed")) := by
  constructor
  · intro command hasSandbox exec
    unfold runCommandRoute
    cases hfc : jsFalsyStr command with
    | true => simp [hfc]
    | false =>
      cases hasSandbox with
      | false => simp [hfc]
      | true =>
        simp only [hfc, Bool.false_eq_true, if_false]
        rcases hx : exec ((jsSplitWs (jsTrim (command.getD ""))).headD "")
            ((jsSplitWs (jsTrim (command.getD ""))).tail) with e | r <;> simp [hx]
  · intro command hasSandbox exec r h1 h2 h3
    subst h2
    rw [List.headD_eq_head?_getD] at h3
    simp [runCommandRoute, h1, h3]

theorem c10_witness :
    jsFalsyStr (some "npm test") = false ∧
    ((runCommandRoute (some "npm test") true
        (fun _ _ => Except.ok ⟨"out", "err", 2⟩)).statusCode = 200 ∧
     (runCommandRoute (some "npm test") true
        (fun _ _ => Except.ok ⟨"out", "err", 2⟩)).success = true ∧
     (runCommandRoute (some "npm test") true
        (fun _ _ => Except.ok ⟨"out", "err", 2⟩)).exitCode = some (2 : Int) ∧
     (runCommandRoute (some "npm test") true
        (fun _ _ => Except.ok ⟨"out", "err", 2⟩)).message =
       some (if (2 : Int) = 0 then "Success" else "Command failed")) :=
  ⟨by decide,
   c10_amended_status_contract.2 (some "npm test") true
     (fun _ _ => Except.ok ⟨"out", "err", 2⟩) ⟨"out", "err", 2⟩ (by decide) rfl rfl⟩

/-- C7 (counterexample): the claim says an explicitly requested
provider without credentials fails over to the other configured
provider; the code instead rejects the request with a 400 error and no
failover (here Groq is configured and Google is explicitly requested). -/
theorem c7_counterexample :
    selectProvider false true (some Prov.google) "gemini-2.0-flash-exp" =
      Except.error ("Provider " ++ "\x27" ++ "google" ++ "\x27" ++
        " is not configured. Please set the appropriate API key.", 400) := by
  rfl

/-- C7 (amended): failover to the other configured provider applies
only when the provider was derived from the model-to-provider mapping;
an explicit provider choice without credentials fails the request with
a 400 error before any streaming begins, with no failover. -/
theorem c7_amended_failover (g q : Bool) (model : String) (cp : Prov) (cm : String)
    (hmc : modelConfig model = some (cp, cm))
    (hcp : provConfigured g q cp = false)
    (hfb : provConfigured g q (otherProv cp) = true) :
    selectProvider g q none model = Except.ok (otherProv cp, cm) ∧
    (∀ p : Prov, provConfigured g q p = false →
      selectProvider g q (some p) model =
        Except.error ("Provider " ++ "\x27" ++ provName p ++ "\x27" ++
          " is not configured. Please set the appropriate API key.", 400)) := by
  constructor
  · cases cp with
    | google =>
      have hg : g = false := by simpa [provConfigured] using hcp
      have hq : q = true := by simpa [provConfigured, otherProv] using hfb
      subst hg; subst hq
      simp [selectProvider, hmc, otherProv, provConfigured]
    | groq =>
      have hq : q = false := by simpa [provConfigured] using hcp
      have hg : g = true := by simpa [provConfigured, otherProv] using hfb
      subst hg; subst hq
      simp [selectProvider, hmc, otherProv, provConfigured]
  · intro p hp
    cases p with
    | google =>
      have hg : g = false := by simpa [provConfigured] using hp
      subst hg
      have hq : q = true := by
        cases cp <;> cases q <;> simp_all [provConfigured, otherProv]
      subst hq
      simp [selectProvider, provConfigured, provName]
    | groq =>
      have hq : q = false := by simpa [provConfigured] using hp
      subst hq
      have hg : g = true := by
        cases cp <;> cases g <;> simp_all [provConfigured, otherProv]
      subst hg
      simp [selectProvider, provConfigured, provName]

theorem c7_witness :
    modelConfig "gemini-1.5-pro" = some (Prov.google, "gemini-1.5-pro-002") ∧
    provConfigured false true Prov.google = false ∧
    provConfigured false true (otherProv Prov.google) = true ∧
    (selectProvider false true none "gemini-1.5-pro" =
       Except.ok (otherProv Prov.google, "gemini-1.5-pro-002") ∧
     (∀ p : Prov, provConfigured false true p = false →
       selectProvider false true (some p) "gemini-1.5-pro" =
         Except.error ("Provider " ++ "\x27" ++ provName p ++ "\x27" ++
           " is not configured. Please set the appropriate API key.", 400))) :=
  ⟨by decide, by decide, by decide,
   c7_amended_failover false true "gemini-1.5-pro" Prov.google "gemini-1.5-pro-002"
     (by decide) (by decide) (by decide)⟩

theorem foldl_excluded_filter (P : String → Bool) (g : String → String) :
    ∀ (specs acc : List String),
      specs.foldl (fun a s => if P s then a else setAdd a (g s)) acc =
      ((specs.filter (fun s => !P s)).map g).foldl setAdd acc := by
  intro specs
  induction specs with
  | nil => intro acc; rfl
  | cons s rest ih =>
    intro acc
    cases h : P s <;> simp [List.filter_cons, h, ih]

/-- C8 (counterexample): the claim says both inferers exclude
specifiers starting with the local alias; the generation route's
detector keeps them and names them by their first two segments. -/
theorem c8_counterexample :
    genDetectPackages [⟨"src/a.ts", "import \"@/lib/utils\""⟩] = ["@/lib"] := by
  decide

/-- C8 (amended): the apply route's `extractPackages` realizes the
spec's inference contract exactly (exclusion of relative, absolute,
local-alias and listed specifiers; scoped and unscoped naming;
insertion-ordered deduplication); the generation route's detector
differs in that it does not exclude local-alias specifiers. -/
theorem c8_amended_package_inference :
    (∀ files, extractPackages files = inferSpec applyExclusions files) ∧
    extractPackages [⟨"src/a.ts", "import \"@/lib/utils\""⟩] = [] ∧
    genDetectPackages [⟨"src/a.ts", "import \"@/lib/utils\""⟩] = ["@/lib"] := by
  refine ⟨?_, by decide, by decide⟩
  intro files
  unfold extractPackages inferSpec dedupKeepFirst
  suffices h : ∀ acc,
      files.foldl
        (fun acc f =>
          (importSpecifiers f.content).foldl
            (fun acc2 s => if excludedApply s then acc2 else setAdd acc2 (pkgName s)) acc)
        acc =
      (((files.flatMap (fun f => importSpecifiers f.content)).filter
          (fun s => !excludedApply s)).map pkgName).foldl setAdd acc by
    exact h []
  induction files with
  | nil => intro acc; rfl
  | cons f rest ih =>
    intro acc
    simp only [List.foldl_cons, List.flatMap_cons, List.filter_append,
      List.map_append, List.foldl_append]
    rw [foldl_excluded_filter excludedApply pkgName (importSpecifiers f.content) acc]
    exact ih _

theorem processFile_policy_eq (faults : Faults) (fs : FS) (res : ApplyResults)
    (f : FileRec) (cur total : Nat) (r : String)
    (hv : isPathSafe (normalizeFilePath f.path) = PathVerdict.rejected r) :
    processFile faults fs res f cur total =
      (fs, { res with errors := res.errors ++ [normalizeFilePath f.path ++ ": " ++ r] },
       [Ev.fileProgress cur total (normalizeFilePath f.path) "validating",
        Ev.fileError (normalizeFilePath f.path) r]) := by
  unfold processFile
  rw [hv]

theorem processFile_dirFault_eq (faults : Faults) (fs : FS) (res : ApplyResults)
    (f : FileRec) (cur total : Nat) (m : String)
    (hv : isPathSafe (normalizeFilePath f.path) = PathVerdict.safe)
    (hd : faults.ensureDirErr (normalizeFilePath f.path) = some m) :
    processFile faults fs res f cur total =
      (fs, { res with errors := res.errors ++ [f.path ++ ": " ++ m] },
       [Ev.fileProgress cur total (normalizeFilePath f.path) "validating",
        Ev.fileProgress cur total (normalizeFilePath f.path)
          (if (fs (resolveKey (normalizeFilePath f.path))).isSome then "updating" else "creating"),
        Ev.fileError f.path m]) := by
  unfold processFile
  rw [hv, hd]

theorem processFile_writeFault_eq (faults : Faults) (fs : FS) (res : ApplyResults)
    (f : FileRec) (cur total : Nat) (m : String)
    (hv : isPathSafe (normalizeFilePath f.path) = PathVerdict.safe)
    (hd : faults.ensureDirErr (normalizeFilePath f.path) = none)
    (hw : faults.writeErr (normalizeFilePath f.path) = some m) :
    processFile faults fs res f cur total =
      (fs, { res with errors := res.errors ++ [f.path ++ ": " ++ m] },
       [Ev.fileProgress cur total (normalizeFilePath f.path) "validating",
        Ev.fileProgress cur total (normalizeFilePath f.path)
          (if (fs (resolveKey (normalizeFilePath f.path))).isSome then "updating" else "creating"),
        Ev.fileError f.path m]) := by
  unfold processFile
  rw [hv, hd, hw]

theorem processFile_ok_eq (faults : Faults) (fs : FS) (res : ApplyResults)
    (f : FileRec) (cur total : Nat)
    (hv : isPathSafe (normalizeFilePath f.path) = PathVerdict.safe)
    (hd : faults.ensureDirErr (normalizeFilePath f.path) = none)
    (hw : faults.writeErr (normalizeFilePath f.path) = none) :
    processFile faults fs res f cur total =
      ((fun k => if k = resolveKey (normalizeFilePath f.path)
                 then some (sanitizeContent f.content (normalizeFilePath f.path))
                 else fs k),
       (if (fs (resolveKey (normalizeFilePath f.path))).isSome
        then { res with filesUpdated := res.filesUpdated ++ [normalizeFilePath f.path] }
        else { res with filesCreated := res.filesCreated ++ [normalizeFilePath f.path] }),
       [Ev.fileProgress cur total (normalizeFilePath f.path) "validating",
        Ev.fileProgress cur total (normalizeFilePath f.path)
          (if (fs (resolveKey (normalizeFilePath f.path))).isSome then "updating" else "creating"),
        Ev.fileComplete (normalizeFilePath f.path)
          (if (fs (resolveKey (normalizeFilePath f.path))).isSome then "updated" else "created")]) := by
  unfold processFile
  rw [hv, hd, hw]

theorem processFile_shape (faults : Faults) (fs : FS) (res : ApplyResults)
    (f : FileRec) (cur total : Nat) :
    fileTraceShape (processFile faults fs res f cur total).2.2 := by
  cases hv : isPathSafe (normalizeFilePath f.path) with
  | rejected r =>
    rw [processFile_policy_eq faults fs res f cur total r hv]
    exact Or.inl ⟨cur, total, _, r, rfl⟩
  | safe =>
    cases hd : faults.ensureDirErr (normalizeFilePath f.path) with
    | some m =>
      rw [processFile_dirFault_eq faults fs res f cur total m hv hd]
      refine Or.inr (Or.inl ⟨cur, total, _, _, _, _, ?_, rfl⟩)
      cases hex : (fs (resolveKey (normalizeFilePath f.path))).isSome <;> simp [hex]
    | none =>
      cases hw : faults.writeErr (normalizeFilePath f.path) with
      | some m =>
        rw [processFile_writeFault_eq faults fs res f cur total m hv hd hw]
        refine Or.inr (Or.inl ⟨cur, total, _, _, _, _, ?_, rfl⟩)
        cases hex : (fs (resolveKey (normalizeFilePath f.path))).isSome <;> simp [hex]
      | none =>
        rw [processFile_ok_eq faults fs res f cur total hv hd hw]
        refine Or.inr (Or.inr ⟨cur, total, _, _, _, ?_, ?_, rfl⟩)
        · cases hex : (fs (resolveKey (normalizeFilePath f.path))).isSome <;> simp [hex]
        · cases hex : (fs (resolveKey (normalizeFilePath f.path))).isSome <;> simp [hex]

theorem processFile_errors_mono (faults : Faults) (fs : FS) (res : ApplyResults)
    (f : FileRec) (cur total : Nat) :
    ∃ t, (processFile faults fs res f cur total).2.1.errors = res.errors ++ t := by
  cases hv : isPathSafe (normalizeFilePath f.path) with
  | rejected r =>
    rw [processFile_policy_eq faults fs res f cur total r hv]
    exact ⟨_, rfl⟩
  | safe =>
    cases hd : faults.ensureDirErr (normalizeFilePath f.path) with
    | some m =>
      rw [processFile_dirFault_eq faults fs res f cur total m hv hd]
      exact ⟨_, rfl⟩
    | none =>
      cases hw : faults.writeErr (normalizeFilePath f.path) with
      | some m =>
        rw [processFile_writeFault_eq faults fs res f cur total m hv hd hw]
        exact ⟨_, rfl⟩
      | none =>
        rw [processFile_ok_eq faults fs res f cur total hv hd hw]
        refine ⟨[], ?_⟩
        cases hex : (fs (resolveKey (normalizeFilePath f.path))).isSome <;> simp [hex]

theorem processFile_one_file_terminal (faults : Faults) (fs : FS) (res : ApplyResults)
    (f : FileRec) (cur total : Nat) :
    ((processFile faults fs res f cur total).2.2.filter isFileTerminal).length = 1 := by
  rcases processFile_shape faults fs res f cur total with
    ⟨c, t, n, r, hseg⟩ | ⟨c, t, n, a, en, er, _, hseg⟩ | ⟨c, t, n, a, a2, _, _, hseg⟩ <;>
    rw [hseg] <;> rfl

theorem processFile_no_batch_terminal (faults : Faults) (fs : FS) (res : ApplyResults)
    (f : FileRec) (cur total : Nat) :
    (processFile faults fs res f cur total).2.2.filter isBatchTerminal = [] := by
  rcases processFile_shape faults fs res f cur total with
    ⟨c, t, n, r, hseg⟩ | ⟨c, t, n, a, en, er, _, hseg⟩ | ⟨c, t, n, a, a2, _, _, hseg⟩ <;>
    rw [hseg] <;> rfl

theorem applyLoop_errors_mono (faults : Faults) :
    ∀ (files : List FileRec) (fs : FS) (res : ApplyResults) (cur total : Nat),
      ∃ t, (applyLoop faults fs res files cur total).2.1.errors = res.errors ++ t := by
  intro files
  induction files with
  | nil => intro fs res cur total; exact ⟨[], by simp [applyLoop]⟩
  | cons f rest ih =>
    intro fs res cur total
    obtain ⟨t1, h1⟩ := processFile_errors_mono faults fs res f cur total
    obtain ⟨t2, h2⟩ := ih (processFile faults fs res f cur total).1
      (processFile faults fs res f cur total).2.1 (cur + 1) total
    exact ⟨t1 ++ t2, by simp [applyLoop, h2, h1, List.append_assoc]⟩

theorem applyLoop_events_eq_segs_join (faults : Faults) :
    ∀ (files : List FileRec) (fs : FS) (res : ApplyResults) (cur total : Nat),
      (applyLoop faults fs res files cur total).2.2 =
        (applySegs faults fs res files cur total).flatten := by
  intro files
  induction files with
  | nil => intro fs res cur total; rfl
  | cons f rest ih =>
    intro fs res cur total
    simp [applyLoop, applySegs, ih]

theorem applySegs_length (faults : Faults) :
    ∀ (files : List FileRec) (fs : FS) (res : ApplyResults) (cur total : Nat),
      (applySegs faults fs res files cur total).length = files.length := by
  intro files
  induction files with
  | nil => intro fs res cur total; rfl
  | cons f rest ih => intro fs res cur total; simp [applySegs, ih]

theorem applySegs_shape (faults : Faults) :
    ∀ (files : List FileRec) (fs : FS) (res : ApplyResults) (cur total : Nat)
      (seg : List Ev), seg ∈ applySegs faults fs res files cur total →
      fileTraceShape seg := by
  intro files
  induction files with
  | nil => intro fs res cur total seg hseg; simp [applySegs] at hseg
  | cons f rest ih =>
    intro fs res cur total seg hseg
    simp only [applySegs, List.mem_cons] at hseg
    rcases hseg with hseg | hseg
    · rw [hseg]; exact processFile_shape faults fs res f cur total
    · exact ih _ _ _ _ _ hseg

theorem applyLoop_file_terminal_count (faults : Faults) :
    ∀ (files : List FileRec) (fs : FS) (res : ApplyResults) (cur total : Nat),
      ((applyLoop faults fs res files cur total).2.2.filter isFileTerminal).length =
        files.length := by
  intro files
  induction files with
  | nil => intro fs res cur total; rfl
  | cons f rest ih =>
    intro fs res cur total
    simp [applyLoop, List.filter_append, ih,
      processFile_one_file_terminal faults fs res f cur total, Nat.add_comm]

theorem applyLoop_no_batch_terminal (faults : Faults) :
    ∀ (files : List FileRec) (fs : FS) (res : ApplyResults) (cur total : Nat),
      (applyLoop faults fs res files cur total).2.2.filter isBatchTerminal = [] := by
  intro files
  induction files with
  | nil => intro fs res cur total; rfl
  | cons f rest ih =>
    intro fs res cur total
    simp [applyLoop, List.filter_append, ih,
      processFile_no_batch_terminal faults fs res f cur total]

theorem postApply_ok (faults : Faults) (fs : FS) (files : List FileRec)
    (pkgs : Option (List String)) (h : requestIssues files = []) :
    postApply faults fs files pkgs =
      ((applyRun faults fs files pkgs).1,
       some (applyRun faults fs files pkgs).2.1,
       (applyRun faults fs files pkgs).2.2) := by
  simp [postApply, h]

theorem applyRun_res (faults : Faults) (fs : FS) (files : List FileRec)
    (pkgs : Option (List String)) :
    (applyRun faults fs files pkgs).2.1 =
      (applyLoop faults fs (applyRes0 files pkgs) files 1 files.length).2.1 := rfl

theorem applyRun_events (faults : Faults) (fs : FS) (files : List FileRec)
    (pkgs : Option (List String)) :
    (applyRun faults fs files pkgs).2.2 =
      Ev.status ("Processing " ++ toString files.length ++ " files...") ::
        (applyLoop faults fs (applyRes0 files pkgs) files 1 files.length).2.2 ++
        [Ev.complete
          (applyRunMsg (applyLoop faults fs (applyRes0 files pkgs) files 1 files.length).2.1)
          (applyLoop faults fs (applyRes0 files pkgs) files 1 files.length).2.1] := rfl

theorem applyLoop_errors_mem_mono (faults : Faults) (files : List FileRec)
    (fs : FS) (res : ApplyResults) (cur total : Nat) {entry : String}
    (h : entry ∈ res.errors) :
    entry ∈ (applyLoop faults fs res files cur total).2.1.errors := by
  obtain ⟨t, ht⟩ := applyLoop_errors_mono faults files fs res cur total
  rw [ht]
  exact List.mem_append.mpr (Or.inl h)

theorem applyLoop_mem_of_step (faults : Faults) (entry : String) (ev : Ev)
    (f : FileRec) (total : Nat)
    (hstep : ∀ (fs : FS) (res : ApplyResults) (cur : Nat),
      entry ∈ (processFile faults fs res f cur total).2.1.errors ∧
      ev ∈ (processFile faults fs res f cur total).2.2) :
    ∀ (files : List FileRec) (fs : FS) (res : ApplyResults) (cur : Nat),
      f ∈ files →
      entry ∈ (applyLoop faults fs res files cur total).2.1.errors ∧
      ev ∈ (applyLoop faults fs res files cur total).2.2 := by
  intro files
  induction files with
  | nil => intro fs res cur hf; simp at hf
  | cons f0 rest ih =>
    intro fs res cur hf
    rcases List.mem_cons.mp hf with heq | hmem
    · subst heq
      obtain ⟨he, hev⟩ := hstep fs res cur
      exact ⟨applyLoop_errors_mem_mono faults rest _ _ (cur + 1) total he,
             List.mem_append.mpr (Or.inl hev)⟩
    · obtain ⟨he, hev⟩ := ih (processFile faults fs res f0 cur total).1
        (processFile faults fs res f0 cur total).2.1 (cur + 1) hmem
      exact ⟨he, List.mem_append.mpr (Or.inr hev)⟩

theorem processFile_policy_mem (faults : Faults) (f : FileRec) (r : String) (total : Nat)
    (hv : isPathSafe (normalizeFilePath f.path) = PathVerdict.rejected r) :
    ∀ (fs : FS) (res : ApplyResults) (cur : Nat),
      (normalizeFilePath f.path ++ ": " ++ r) ∈ (processFile faults fs res f cur total).2.1.errors ∧
      Ev.fileError (normalizeFilePath f.path) r ∈ (processFile faults fs res f cur total).2.2 := by
  intro fs res cur
  rw [processFile_policy_eq faults fs res f cur total r hv]
  exact ⟨List.mem_append.mpr (Or.inr (by simp)), by simp⟩

theorem processFile_dirFault_mem (faults : Faults) (f : FileRec) (m : String) (total : Nat)
    (hv : isPathSafe (normalizeFilePath f.path) = PathVerdict.safe)
    (hd : faults.ensureDirErr (normalizeFilePath f.path) = some m) :
    ∀ (fs : FS) (res : ApplyResults) (cur : Nat),
      (f.path ++ ": " ++ m) ∈ (processFile faults fs res f cur total).2.1.errors ∧
      Ev.fileError f.path m ∈ (processFile faults fs res f cur total).2.2 := by
  intro fs res cur
  rw [processFile_dirFault_eq faults fs res f cur total m hv hd]
  exact ⟨List.mem_append.mpr (Or.inr (by simp)), by simp⟩

theorem processFile_writeFault_mem (faults : Faults) (f : FileRec) (m : String) (total : Nat)
    (hv : isPathSafe (normalizeFilePath f.path) = PathVerdict.safe)
    (hd : faults.ensureDirErr (normalizeFilePath f.path) = none)
    (hw : faults.writeErr (normalizeFilePath f.path) = some m) :
    ∀ (fs : FS) (res : ApplyResults) (cur : Nat),
      (f.path ++ ": " ++ m) ∈ (processFile faults fs res f cur total).2.1.errors ∧
      Ev.fileError f.path m ∈ (processFile faults fs res f cur total).2.2 := by
  intro fs res cur
  rw [processFile_writeFault_eq faults fs res f cur total m hv hd hw]
  exact ⟨List.mem_append.mpr (Or.inr (by simp)), by simp⟩

/-- C1: per-file isolation of the apply engine. For every validated
batch and every fault assignment, the run emits exactly one batch
terminal event, a complete frame carrying the final results at the end
of the stream; every file contributes exactly one terminal per-file
event (so a failing file never stops the batch); and for each file
whose path-policy classification fails, or whose directory creation or
write raises, the entry path-colon-reason is recorded in the errors
list and a file-error event is emitted for that file. -/
theorem c1_per_file_isolation (faults : Faults) (fs : FS) (files : List FileRec)
    (pkgs : Option (List String)) (h : requestIssues files = []) :
    ∃ res msg,
      (postApply faults fs files pkgs).2.1 = some res ∧
      ((postApply faults fs files pkgs).2.2).filter isBatchTerminal = [Ev.complete msg res] ∧
      ((postApply faults fs files pkgs).2.2).getLast? = some (Ev.complete msg res) ∧
      (((postApply faults fs files pkgs).2.2).filter isFileTerminal).length = files.length ∧
      (∀ f ∈ files, ∀ r, isPathSafe (normalizeFilePath f.path) = PathVerdict.rejected r →
        (normalizeFilePath f.path ++ ": " ++ r) ∈ res.errors ∧
        Ev.fileError (normalizeFilePath f.path) r ∈ (postApply faults fs files pkgs).2.2) ∧
      (∀ f ∈ files, ∀ m, isPathSafe (normalizeFilePath f.path) = PathVerdict.safe →
        faults.ensureDirErr (normalizeFilePath f.path) = some m →
        (f.path ++ ": " ++ m) ∈ res.errors ∧
        Ev.fileError f.path m ∈ (postApply faults fs files pkgs).2.2) ∧
      (∀ f ∈ files, ∀ m, isPathSafe (normalizeFilePath f.path) = PathVerdict.safe →
        faults.ensureDirErr (normalizeFilePath f.path) = none →
        faults.writeErr (normalizeFilePath f.path) = some m →
        (f.path ++ ": " ++ m) ∈ res.errors ∧
        Ev.fileError f.path m ∈ (postApply faults fs files pkgs).2.2) := by
  rw [postApply_ok faults fs files pkgs h]
  refine ⟨(applyRun faults fs files pkgs).2.1,
          applyRunMsg (applyLoop faults fs (applyRes0 files pkgs) files 1 files.length).2.1,
          rfl, ?_, ?_, ?_, ?_, ?_, ?_⟩
  · rw [applyRun_events]
    simp [List.filter_append, List.filter_cons, isBatchTerminal,
      applyLoop_no_batch_terminal, applyRun_res]
  · rw [applyRun_events, applyRun_res, List.getLast?_concat]
  · rw [applyRun_events]
    simp [List.filter_append, List.filter_cons, isFileTerminal,
      applyLoop_file_terminal_count]
  · intro f hf r hv
    have := applyLoop_mem_of_step faults (normalizeFilePath f.path ++ ": " ++ r)
      (Ev.fileError (normalizeFilePath f.path) r) f files.length
      (processFile_policy_mem faults f r files.length hv)
      files fs (applyRes0 files pkgs) 1 hf
    refine ⟨by rw [applyRun_res]; exact this.1, ?_⟩
    rw [applyRun_events]
    exact List.mem_cons.mpr (Or.inr (List.mem_append.mpr (Or.inl this.2)))
  · intro f hf m hv hd
    have := applyLoop_mem_of_step faults (f.path ++ ": " ++ m)
      (Ev.fileError f.path m) f files.length
      (processFile_dirFault_mem faults f m files.length hv hd)
      files fs (applyRes0 files pkgs) 1 hf
    refine ⟨by rw [applyRun_res]; exact this.1, ?_⟩
    rw [applyRun_events]
    exact List.mem_cons.mpr (Or.inr (List.mem_append.mpr (Or.inl this.2)))
  · intro f hf m hv hd hw
    have := applyLoop_mem_of_step faults (f.path ++ ": " ++ m)
      (Ev.fileError f.path m) f files.length
      (processFile_writeFault_mem faults f m files.length hv hd hw)
      files fs (applyRes0 files pkgs) 1 hf
    refine ⟨by rw [applyRun_res]; exact this.1, ?_⟩
    rw [applyRun_events]
    exact List.mem_cons.mpr (Or.inr (List.mem_append.mpr (Or.inl this.2)))

theorem c1_witness :
    requestIssues isolationBatch = [] ∧
    (∃ res msg,
      (postApply noFaults emptyFS isolationBatch none).2.1 = some res ∧
      ((postApply noFaults emptyFS isolationBatch none).2.2).filter isBatchTerminal =
        [Ev.complete msg res] ∧
      ((postApply noFaults emptyFS isolationBatch none).2.2).getLast? =
        some (Ev.complete msg res) ∧
      (((postApply noFaults emptyFS isolationBatch none).2.2).filter isFileTerminal).length =
        isolationBatch.length ∧
      (∀ f ∈ isolationBatch, ∀ r,
        isPathSafe (normalizeFilePath f.path) = PathVerdict.rejected r →
        (normalizeFilePath f.path ++ ": " ++ r) ∈ res.errors ∧
        Ev.fileError (normalizeFilePath f.path) r ∈
          (postApply noFaults emptyFS isolationBatch none).2.2) ∧
      (∀ f ∈ isolationBatch, ∀ m,
        isPathSafe (normalizeFilePath f.path) = PathVerdict.safe →
        noFaults.ensureDirErr (normalizeFilePath f.path) = some m →
        (f.path ++ ": " ++ m) ∈ res.errors ∧
        Ev.fileError f.path m ∈ (postApply noFaults emptyFS isolationBatch none).2.2) ∧
      (∀ f ∈ isolationBatch, ∀ m,
        isPathSafe (normalizeFilePath f.path) = PathVerdict.safe →
        noFaults.ensureDirErr (normalizeFilePath f.path) = none →
        noFaults.writeErr (normalizeFilePath f.path) = some m →
        (f.path ++ ": " ++ m) ∈ res.errors ∧
        Ev.fileError f.path m ∈ (postApply noFaults emptyFS isolationBatch none).2.2)) :=
  ⟨by decide, c1_per_file_isolation noFaults emptyFS isolationBatch none (by decide)⟩

/-- C3: batch-boundary validation. A batch of size zero or above the
maximum, or containing any empty, overlong, traversal or absolute
path, is rejected as a whole before any per-file processing: the
stream consists of a single error event and the filesystem is
untouched. -/
theorem c3_batch_boundary_rejection (faults : Faults) (fs : FS) (files : List FileRec)
    (pkgs : Option (List String))
    (h : files.length = 0 ∨ 100 < files.length ∨
      ∃ f ∈ files, f.path = "" ∨ 500 < f.path.length ∨
        jsIncludes f.path ".." = true ∨ posixIsAbsolute f.path = true) :
    postApply faults fs files pkgs =
      (fs, none, [Ev.errorEv ("Validation failed: " ++ joinComma (requestIssues files))]) := by
  apply postApply_reject
  rcases h with h0 | h100 | ⟨f, hf, hbad⟩
  · have hm : "At least one file is required" ∈ requestIssues files := by
      unfold requestIssues
      refine List.mem_append_left _ (List.mem_append_left _ ?_)
      simp [h0]
    exact List.ne_nil_of_mem hm
  · have hm : "Too many files in single request" ∈ requestIssues files := by
      unfold requestIssues
      refine List.mem_append_left _ (List.mem_append_right _ ?_)
      simp [h100]
    exact List.ne_nil_of_mem hm
  · rcases hbad with hbe | hlen | hdd | habs
    · have hm : "File path cannot be empty" ∈ fileSchemaIssues f.path := by
        unfold fileSchemaIssues
        refine List.mem_append_left _ (List.mem_append_left _ (List.mem_append_left _
          (List.mem_append_left _ ?_)))
        simp [hbe]
      exact List.ne_nil_of_mem (mem_requestIssues_of_mem_fileIssues hf hm)
    · have hm : "File path too long" ∈ fileSchemaIssues f.path := by
        unfold fileSchemaIssues
        refine List.mem_append_left _ (List.mem_append_left _ (List.mem_append_left _
          (List.mem_append_right _ ?_)))
        simp [hlen]
      exact List.ne_nil_of_mem (mem_requestIssues_of_mem_fileIssues hf hm)
    · have hm : ("Path traversal detected: \"..\" not allowed") ∈ fileSchemaIssues f.path := by
        unfold fileSchemaIssues
        refine List.mem_append_left _ (List.mem_append_left _ (List.mem_append_right _ ?_))
        simp [hdd]
      exact List.ne_nil_of_mem (mem_requestIssues_of_mem_fileIssues hf hm)
    · have hm : "Absolute paths not allowed" ∈ fileSchemaIssues f.path := by
        unfold fileSchemaIssues
        refine List.mem_append_left _ (List.mem_append_right _ ?_)
        simp [habs]
      exact List.ne_nil_of_mem (mem_requestIssues_of_mem_fileIssues hf hm)

theorem c3_witness :
    ([(⟨"../etc/passwd", "x"⟩ : FileRec)].length = 0 ∨
     100 < [(⟨"../etc/passwd", "x"⟩ : FileRec)].length ∨
     ∃ f ∈ [(⟨"../etc/passwd", "x"⟩ : FileRec)], f.path = "" ∨ 500 < f.path.length ∨
       jsIncludes f.path ".." = true ∨ posixIsAbsolute f.path = true) ∧
    postApply noFaults emptyFS [⟨"../etc/passwd", "x"⟩] none =
      (emptyFS, none,
       [Ev.errorEv ("Validation failed: " ++
          joinComma (requestIssues [⟨"../etc/passwd", "x"⟩]))]) :=
  ⟨by decide,
   c3_batch_boundary_rejection noFaults emptyFS [⟨"../etc/passwd", "x"⟩] none (by decide)⟩

/-- C4: the per-file event ordering invariant. Over a validated batch
the stream is one status frame, then one segment per input file in
input order, then exactly one batch-terminal frame (a complete event);
every segment is a validating progress frame, optionally followed by a
creating-or-updating progress frame, ended by exactly one terminal
file-complete or file-error event, in that order. -/
theorem c4_event_ordering (faults : Faults) (fs : FS) (files : List FileRec)
    (pkgs : Option (List String)) (h : requestIssues files = []) :
    ∃ (segs : List (List Ev)) (msg : String) (res : ApplyResults),
      (postApply faults fs files pkgs).2.2 =
        Ev.status ("Processing " ++ toString files.length ++ " files...") ::
          segs.flatten ++ [Ev.complete msg res] ∧
      segs.length = files.length ∧
      (∀ seg ∈ segs, fileTraceShape seg) ∧
      (((postApply faults fs files pkgs).2.2).filter isBatchTerminal).length = 1 := by
  rw [postApply_ok faults fs files pkgs h]
  refine ⟨applySegs faults fs (applyRes0 files pkgs) files 1 files.length,
          applyRunMsg (applyLoop faults fs (applyRes0 files pkgs) files 1 files.length).2.1,
          (applyLoop faults fs (applyRes0 files pkgs) files 1 files.length).2.1,
          ?_,
          applySegs_length faults files fs (applyRes0 files pkgs) 1 files.length,
          fun seg hseg =>
            applySegs_shape faults files fs (applyRes0 files pkgs) 1 files.length seg hseg,
          ?_⟩
  · rw [applyRun_events, applyLoop_events_eq_segs_join]
  · rw [applyRun_events]
    simp [List.filter_append, List.filter_cons, isBatchTerminal,
      applyLoop_no_batch_terminal]

theorem c4_witness :
    requestIssues [(⟨"src/a.txt", "hi"⟩ : FileRec)] = [] ∧
    (∃ (segs : List (List Ev)) (msg : String) (res : ApplyResults),
      (postApply noFaults emptyFS [⟨"src/a.txt", "hi"⟩] none).2.2 =
        Ev.status ("Processing " ++ toString [(⟨"src/a.txt", "hi"⟩ : FileRec)].length ++
          " files...") :: segs.flatten ++ [Ev.complete msg res] ∧
      segs.length = [(⟨"src/a.txt", "hi"⟩ : FileRec)].length ∧
      (∀ seg ∈ segs, fileTraceShape seg) ∧
      (((postApply noFaults emptyFS [⟨"src/a.txt", "hi"⟩] none).2.2).filter
          isBatchTerminal).length = 1) :=
  ⟨by decide, c4_event_ordering noFaults emptyFS [⟨"src/a.txt", "hi"⟩] none (by decide)⟩

theorem alookup_append (p : String) (m1 m2 : List (String × String)) :
    alookup p (m1 ++ m2) =
      match alookup p m1 with
      | some c => some c
      | none => alookup p m2 := by
  induction m1 with
  | nil => rfl
  | cons kv rest ih =>
    obtain ⟨k, v⟩ := kv
    by_cases hk : k = p <;> simp [alookup, hk, ih]

theorem alookup_mapUpdate (q c p : String) (m : List (String × String)) :
    alookup p (m.map (fun kv => if kv.1 = q then (q, c) else kv)) =
      if q = p then (alookup p m).map (fun _ => c) else alookup p m := by
  induction m with
  | nil => by_cases hqp : q = p <;> simp [alookup, hqp]
  | cons kv rest ih =>
    obtain ⟨k, v⟩ := kv
    show alookup p ((if k = q then (q, c) else (k, v)) ::
      rest.map (fun kv => if kv.1 = q then (q, c) else kv)) = _
    by_cases hkq : k = q
    · rw [if_pos hkq]
      subst hkq
      by_cases hqp : k = p
      · subst hqp
        simp [alookup]
      · simp [alookup, hqp, ih]
    · rw [if_neg hkq]
      by_cases hkp : k = p
      · subst hkp
        have hqp : ¬ q = k := fun hcon => hkq hcon.symm
        simp [alookup, hqp]
      · simp [alookup, hkp, ih]

theorem alookup_mergeInto (m : List (String × String)) (q c p : String) :
    alookup p (mergeInto m q c) =
      if q = p then bestOf (alookup p m) c else alookup p m := by
  unfold mergeInto
  cases hl : alookup q m with
  | none =>
    rw [alookup_append]
    by_cases hqp : q = p
    · subst hqp
      rw [hl]
      simp [alookup, bestOf, hl]
    · simp [alookup, hqp]
      cases alookup p m <;> simp
  | some c0 =>
    show alookup p
      (if c.length > c0.length then m.map (fun kv => if kv.1 = q then (q, c) else kv) else m) = _
    by_cases hgt : c.length > c0.length
    · rw [if_pos hgt, alookup_mapUpdate]
      by_cases hqp : q = p
      · subst hqp
        simp [hl, bestOf, hgt]
      · simp [hqp]
    · rw [if_neg hgt]
      by_cases hqp : q = p
      · subst hqp
        simp [hl, bestOf, hgt]
      · simp [hqp]

theorem alookup_mergeAll_fold (p : String) :
    ∀ (l : List (String × String)) (m : List (String × String)),
      alookup p (l.foldl (fun m2 pc => mergeInto m2 pc.1 pc.2) m) =
        (contentsFor p l).foldl bestOf (alookup p m) := by
  intro l
  induction l with
  | nil => intro m; rfl
  | cons pc rest ih =>
    intro m
    obtain ⟨q, c⟩ := pc
    by_cases hqp : q = p
    · simp [contentsFor, hqp, List.foldl_cons, ih, alookup_mergeInto]
    · simp [contentsFor, hqp, List.foldl_cons, ih, alookup_mergeInto]

theorem alookup_mergeAll (p : String) (l : List (String × String)) :
    alookup p (mergeAll l) = (contentsFor p l).foldl bestOf none :=
  alookup_mergeAll_fold p l []

theorem foldl_bestOf_spec :
    ∀ (L : List String) (b : Option String) (c : String),
      L.foldl bestOf b = some c →
      (c ∈ L ∨ b = some c) ∧ (∀ d ∈ L, d.length ≤ c.length) ∧
      (∀ c0, b = some c0 → c0.length ≤ c.length) := by
  intro L
  induction L with
  | nil =>
    intro b c h
    simp only [List.foldl_nil] at h
    refine ⟨Or.inr h, by simp, ?_⟩
    intro c0 hb
    rw [h] at hb
    cases hb
    exact le_refl _
  | cons d rest ih =>
    intro b c h
    obtain ⟨hmem, hmax, hb⟩ := ih (bestOf b d) c h
    have hbd : ∀ c1, bestOf b d = some c1 →
        d.length ≤ c1.length ∧ (∀ c0, b = some c0 → c0.length ≤ c1.length) ∧
        (c1 = d ∨ b = some c1) := by
      intro c1 h1
      cases b with
      | none =>
        simp [bestOf] at h1
        subst h1
        exact ⟨le_refl _, (by intro c0 hc0; cases hc0), Or.inl rfl⟩
      | some c0 =>
        simp [bestOf] at h1
        by_cases hgt : c0.length < d.length
        · rw [if_pos hgt] at h1
          subst h1
          exact ⟨le_refl _, (by intro c2 hc2; cases hc2; exact le_of_lt hgt), Or.inl rfl⟩
        · rw [if_neg hgt] at h1
          subst h1
          exact ⟨le_of_not_lt hgt, (by intro c2 hc2; cases hc2; exact le_refl _), Or.inr rfl⟩
    refine ⟨?_, ?_, ?_⟩
    · rcases hmem with hm | hm
      · exact Or.inl (List.mem_cons_of_mem _ hm)
      · rcases (hbd c hm).2.2 with hc | hc
        · exact Or.inl (hc ▸ List.mem_cons_self d rest)
        · exact Or.inr hc
    · intro e he
      rcases List.mem_cons.mp he with he | he
      · rw [he]
        cases hbdv : bestOf b d with
        | none => cases b <;> simp [bestOf] at hbdv
        | some c1 =>
          exact le_trans (hbd c1 hbdv).1 (hb c1 hbdv)
      · exact hmax e he
    · intro c0 hc0
      cases hbdv : bestOf b d with
      | none => cases b <;> simp [bestOf] at hbdv
      | some c1 =>
        exact le_trans ((hbd c1 hbdv).2.1 c0 hc0) (hb c1 hbdv)

theorem foldl_bestOf_ne_none :
    ∀ (L : List String) (c0 : String), L.foldl bestOf (some c0) ≠ none := by
  intro L
  induction L with
  | nil => intro c0 h; cases h
  | cons d rest ih =>
    intro c0
    simp only [List.foldl_cons, bestOf]
    exact ih _

theorem foldl_bestOf_none_iff (L : List String) :
    L.foldl bestOf none = none ↔ L = [] := by
  cases L with
  | nil => simp
  | cons d rest =>
    simp only [List.foldl_cons, bestOf]
    exact ⟨fun h => absurd h (foldl_bestOf_ne_none rest d), fun h => by cases h⟩

/-- C5 (counterexample): the claim says the merged file set is
deterministic regardless of the order in which the two grammars are
evaluated; on an equal-length tie between a tagged block and a fenced
block for the same path, the first-encountered variant wins, so the
two evaluation orders disagree. -/
theorem c5_counterexample :
    parseAIGeneratedCode
        "<file path=\"p.ts\">abc</file>\n```js path=\"p.ts\"\nxyz\n```" =
      [⟨"p.ts", "abc"⟩] ∧
    parseAIGeneratedCodeSwapped
        "<file path=\"p.ts\">abc</file>\n```js path=\"p.ts\"\nxyz\n```" =
      [⟨"p.ts", "xyz"⟩] ∧
    parseAIGeneratedCode
        "<file path=\"p.ts\">abc</file>\n```js path=\"p.ts\"\nxyz\n```" ≠
      parseAIGeneratedCodeSwapped
        "<file path=\"p.ts\">abc</file>\n```js path=\"p.ts\"\nxyz\n```" :=
  ⟨by decide, by decide, by decide⟩

/-- C5 (amended): the parser merges both grammars' extractions under
the longest-wins rule, keeping for each path a variant of maximal
content length (the first encountered among equals); when for a path
every two extracted contents of equal length are equal — in particular
when lengths differ, as with contents of length 3 and 10 — the merged
entry for that path is independent of the order in which the two
grammars are evaluated. -/
theorem c5_amended_merge (s p : String)
    (huniq : ∀ c1 ∈ contentsFor p (extractTagBlocks s ++ extractFencedBlocks s),
             ∀ c2 ∈ contentsFor p (extractTagBlocks s ++ extractFencedBlocks s),
             c1.length = c2.length → c1 = c2) :
    parseAIGeneratedCode s =
      (mergeAll (extractTagBlocks s ++ extractFencedBlocks s)).map
        (fun pc => (⟨pc.1, pc.2⟩ : FileRec)) ∧
    alookup p (mergeAll (extractTagBlocks s ++ extractFencedBlocks s)) =
      alookup p (mergeAll (extractFencedBlocks s ++ extractTagBlocks s)) ∧
    (∀ c, alookup p (mergeAll (extractTagBlocks s ++ extractFencedBlocks s)) = some c →
      c ∈ contentsFor p (extractTagBlocks s ++ extractFencedBlocks s) ∧
      ∀ d ∈ contentsFor p (extractTagBlocks s ++ extractFencedBlocks s),
        d.length ≤ c.length) := by
  have hAB : contentsFor p (extractTagBlocks s ++ extractFencedBlocks s) =
      contentsFor p (extractTagBlocks s) ++ contentsFor p (extractFencedBlocks s) := by
    simp [contentsFor, List.filter_append]
  have hBA : contentsFor p (extractFencedBlocks s ++ extractTagBlocks s) =
      contentsFor p (extractFencedBlocks s) ++ contentsFor p (extractTagBlocks s) := by
    simp [contentsFor, List.filter_append]
  refine ⟨rfl, ?_, ?_⟩
  · rw [alookup_mergeAll, alookup_mergeAll]
    cases h1 : (contentsFor p (extractTagBlocks s ++ extractFencedBlocks s)).foldl
        bestOf none with
    | none =>
      have hnil := (foldl_bestOf_none_iff _).mp h1
      rw [hAB] at hnil
      obtain ⟨ha, hb⟩ := List.append_eq_nil.mp hnil
      rw [hBA, hb, ha]
      rfl
    | some c =>
      have hspec := foldl_bestOf_spec _ none c h1
      cases h2 : (contentsFor p (extractFencedBlocks s ++ extractTagBlocks s)).foldl
          bestOf none with
      | none =>
        exfalso
        have hnil := (foldl_bestOf_none_iff _).mp h2
        rw [hBA] at hnil
        obtain ⟨hb, ha⟩ := List.append_eq_nil.mp hnil
        rcases hspec.1 with hm | hm
        · rw [hAB] at hm
          rcases List.mem_append.mp hm with hx | hx
          · rw [ha] at hx; simp at hx
          · rw [hb] at hx; simp at hx
        · cases hm
      | some c2 =>
        have hspec2 := foldl_bestOf_spec _ none c2 h2
        have hc_mem : c ∈ contentsFor p (extractTagBlocks s ++ extractFencedBlocks s) := by
          rcases hspec.1 with hm | hm
          · exact hm
          · cases hm
        have hc2_mem : c2 ∈ contentsFor p (extractFencedBlocks s ++ extractTagBlocks s) := by
          rcases hspec2.1 with hm | hm
          · exact hm
          · cases hm
        have hc2_mem2 : c2 ∈ contentsFor p (extractTagBlocks s ++ extractFencedBlocks s) := by
          rw [hAB]
          rw [hBA] at hc2_mem
          exact List.mem_append.mpr (List.mem_append.mp hc2_mem).symm
        have hc_mem2 : c ∈ contentsFor p (extractFencedBlocks s ++ extractTagBlocks s) := by
          rw [hBA]
          rw [hAB] at hc_mem
          exact List.mem_append.mpr (List.mem_append.mp hc_mem).symm
        have hle1 : c.length ≤ c2.length := hspec2.2.1 c hc_mem2
        have hle2 : c2.length ≤ c.length := hspec.2.1 c2 hc2_mem2
        rw [huniq c hc_mem c2 hc2_mem2 (le_antisymm hle1 hle2)]
  · intro c hc
    rw [alookup_mergeAll] at hc
    have hspec := foldl_bestOf_spec _ none c hc
    rcases hspec.1 with hm | hm
    · exact ⟨hm, hspec.2.1⟩
    · cases hm

theorem c5_witness :
    (∀ c1 ∈ contentsFor "p.ts"
        (extractTagBlocks
          "<file path=\"p.ts\">abc</file>\n```js path=\"p.ts\"\nabcdefghij\n```" ++
         extractFencedBlocks
          "<file path=\"p.ts\">abc</file>\n```js path=\"p.ts\"\nabcdefghij\n```"),
     ∀ c2 ∈ contentsFor "p.ts"
        (extractTagBlocks
          "<file path=\"p.ts\">abc</file>\n```js path=\"p.ts\"\nabcdefghij\n```" ++
         extractFencedBlocks
          "<file path=\"p.ts\">abc</file>\n```js path=\"p.ts\"\nabcdefghij\n```"),
     c1.length = c2.length → c1 = c2) ∧
    alookup "p.ts"
        (mergeAll
          (extractTagBlocks
            "<file path=\"p.ts\">abc</file>\n```js path=\"p.ts\"\nabcdefghij\n```" ++
           extractFencedBlocks
            "<file path=\"p.ts\">abc</file>\n```js path=\"p.ts\"\nabcdefghij\n```")) =
      alookup "p.ts"
        (mergeAll
          (extractFencedBlocks
            "<file path=\"p.ts\">abc</file>\n```js path=\"p.ts\"\nabcdefghij\n```" ++
           extractTagBlocks
            "<file path=\"p.ts\">abc</file>\n```js path=\"p.ts\"\nabcdefghij\n```")) :=
  ⟨by decide,
   (c5_amended_merge
     "<file path=\"p.ts\">abc</file>\n```js path=\"p.ts\"\nabcdefghij\n```" "p.ts"
     (by decide)).2.1⟩

theorem applyLoop_cons (faults : Faults) (fs : FS) (res : ApplyResults)
    (f : FileRec) (rest : List FileRec) (cur total : Nat) :
    applyLoop faults fs res (f :: rest) cur total =
      ((applyLoop faults (processFile faults fs res f cur total).1
          (processFile faults fs res f cur total).2.1 rest (cur + 1) total).1,
       (applyLoop faults (processFile faults fs res f cur total).1
          (processFile faults fs res f cur total).2.1 rest (cur + 1) total).2.1,
       (processFile faults fs res f cur total).2.2 ++
       (applyLoop faults (processFile faults fs res f cur total).1
          (processFile faults fs res f cur total).2.1 rest (cur + 1) total).2.2) := rfl

theorem applyLoop_fresh :
    ∀ (files : List FileRec) (fs : FS) (res : ApplyResults) (cur total : Nat),
      (∀ f ∈ files, isPathSafe (normalizeFilePath f.path) = PathVerdict.safe) →
      (∀ f ∈ files, fs (targetKey f) = none) →
      List.Pairwise (fun f g => targetKey f ≠ targetKey g) files →
      (applyLoop noFaults fs res files cur total).2.1.filesCreated =
        res.filesCreated ++ files.map (fun f => normalizeFilePath f.path) ∧
      (applyLoop noFaults fs res files cur total).2.1.filesUpdated = res.filesUpdated ∧
      (applyLoop noFaults fs res files cur total).2.1.errors = res.errors ∧
      (∀ f ∈ files,
        (applyLoop noFaults fs res files cur total).1 (targetKey f) = some f.content) ∧
      (∀ k, (∀ f ∈ files, k ≠ targetKey f) →
        (applyLoop noFaults fs res files cur total).1 k = fs k) := by
  intro files
  induction files with
  | nil =>
    intro fs res cur total hsafe hfresh hdist
    exact ⟨by simp [applyLoop], rfl, rfl, by simp, fun k hk => rfl⟩
  | cons f rest ih =>
    intro fs res cur total hsafe hfresh hdist
    have hv := hsafe f (List.mem_cons_self f rest)
    have hfr : fs (resolveKey (normalizeFilePath f.path)) = none :=
      hfresh f (List.mem_cons_self f rest)
    obtain ⟨hhead, htail⟩ := List.pairwise_cons.mp hdist
    have hstep := processFile_ok_eq noFaults fs res f cur total hv rfl rfl
    simp only [hfr, Option.isSome_none, Bool.false_eq_true, if_false] at hstep
    have hsafe2 : ∀ g ∈ rest, isPathSafe (normalizeFilePath g.path) = PathVerdict.safe :=
      fun g hg => hsafe g (List.mem_cons_of_mem f hg)
    have hfresh2 : ∀ g ∈ rest,
        ((fun k => if k = resolveKey (normalizeFilePath f.path)
                   then some (sanitizeContent f.content (normalizeFilePath f.path))
                   else fs k) : FS) (targetKey g) = none := by
      intro g hg
      have hne : ¬ (targetKey g = resolveKey (normalizeFilePath f.path)) :=
        fun hc => hhead g hg hc.symm
      show (if targetKey g = resolveKey (normalizeFilePath f.path)
            then some (sanitizeContent f.content (normalizeFilePath f.path))
            else fs (targetKey g)) = none
      rw [if_neg hne]
      exact hfresh g (List.mem_cons_of_mem f hg)
    obtain ⟨hc, hu, he, hmem, hunch⟩ :=
      ih (fun k => if k = resolveKey (normalizeFilePath f.path)
                   then some (sanitizeContent f.content (normalizeFilePath f.path))
                   else fs k)
         { res with filesCreated := res.filesCreated ++ [normalizeFilePath f.path] }
         (cur + 1) total hsafe2 hfresh2 htail
    refine ⟨?_, ?_, ?_, ?_, ?_⟩
    · rw [applyLoop_cons, hstep]
      simp only [Prod.fst, Prod.snd] at hc ⊢
      rw [hc]
      simp [List.append_assoc]
    · rw [applyLoop_cons, hstep]
      exact hu
    · rw [applyLoop_cons, hstep]
      exact he
    · intro g hg
      rcases List.mem_cons.mp hg with heq | hg2
      · subst heq
        rw [applyLoop_cons, hstep]
        have hnk : ∀ g2 ∈ rest, targetKey g ≠ targetKey g2 := hhead
        have := hunch (targetKey g) (fun g2 hg2 => hnk g2 hg2)
        rw [this]
        show (if targetKey g = resolveKey (normalizeFilePath g.path)
              then some (sanitizeContent g.content (normalizeFilePath g.path))
              else fs (targetKey g)) = some g.content
        rw [if_pos (show targetKey g = resolveKey (normalizeFilePath g.path) from rfl)]
        rfl
      · rw [applyLoop_cons, hstep]
        exact hmem g hg2
    · intro k hk
      rw [applyLoop_cons, hstep]
      have := hunch k (fun g hg => hk g (List.mem_cons_of_mem f hg))
      rw [this]
      show (if k = resolveKey (normalizeFilePath f.path)
            then some (sanitizeContent f.content (normalizeFilePath f.path))
            else fs k) = fs k
      rw [if_neg (show ¬ (k = resolveKey (normalizeFilePath f.path)) from
        hk f (List.mem_cons_self f rest))]

theorem applyLoop_existing :
    ∀ (files : List FileRec) (fs : FS) (res : ApplyResults) (cur total : Nat),
      (∀ f ∈ files, isPathSafe (normalizeFilePath f.path) = PathVerdict.safe) →
      (∀ f ∈ files, (fs (targetKey f)).isSome = true) →
      List.Pairwise (fun f g => targetKey f ≠ targetKey g) files →
      (applyLoop noFaults fs res files cur total).2.1.filesUpdated =
        res.filesUpdated ++ files.map (fun f => normalizeFilePath f.path) ∧
      (applyLoop noFaults fs res files cur total).2.1.filesCreated = res.filesCreated ∧
      (applyLoop noFaults fs res files cur total).2.1.errors = res.errors ∧
      (∀ f ∈ files,
        (applyLoop noFaults fs res files cur total).1 (targetKey f) = some f.content) ∧
      (∀ k, (∀ f ∈ files, k ≠ targetKey f) →
        (applyLoop noFaults fs res files cur total).1 k = fs k) := by
  intro files
  induction files with
  | nil =>
    intro fs res cur total hsafe hexist hdist
    exact ⟨by simp [applyLoop], rfl, rfl, by simp, fun k hk => rfl⟩
  | cons f rest ih =>
    intro fs res cur total hsafe hexist hdist
    have hv := hsafe f (List.mem_cons_self f rest)
    have hex : (fs (resolveKey (normalizeFilePath f.path))).isSome = true :=
      hexist f (List.mem_cons_self f rest)
    obtain ⟨hhead, htail⟩ := List.pairwise_cons.mp hdist
    have hstep := processFile_ok_eq noFaults fs res f cur total hv rfl rfl
    simp only [hex, if_true] at hstep
    have hsafe2 : ∀ g ∈ rest, isPathSafe (normalizeFilePath g.path) = PathVerdict.safe :=
      fun g hg => hsafe g (List.mem_cons_of_mem f hg)
    have hexist2 : ∀ g ∈ rest,
        (((fun k => if k = resolveKey (normalizeFilePath f.path)
                    then some (sanitizeContent f.content (normalizeFilePath f.path))
                    else fs k) : FS) (targetKey g)).isSome = true := by
      intro g hg
      show (if targetKey g = resolveKey (normalizeFilePath f.path)
            then some (sanitizeContent f.content (normalizeFilePath f.path))
            else fs (targetKey g)).isSome = true
      by_cases hc : targetKey g = resolveKey (normalizeFilePath f.path)
      · rw [if_pos hc]; rfl
      · rw [if_neg hc]; exact hexist g (List.mem_cons_of_mem f hg)
    obtain ⟨hu, hc, he, hmem, hunch⟩ :=
      ih (fun k => if k = resolveKey (normalizeFilePath f.path)
                   then some (sanitizeContent f.content (normalizeFilePath f.path))
                   else fs k)
         { res with filesUpdated := res.filesUpdated ++ [normalizeFilePath f.path] }
         (cur + 1) total hsafe2 hexist2 htail
    refine ⟨?_, ?_, ?_, ?_, ?_⟩
    · rw [applyLoop_cons, hstep]
      rw [hu]
      simp [List.append_assoc]
    · rw [applyLoop_cons, hstep]
      exact hc
    · rw [applyLoop_cons, hstep]
      exact he
    · intro g hg
      rcases List.mem_cons.mp hg with heq | hg2
      · subst heq
        rw [applyLoop_cons, hstep]
        have := hunch (targetKey g) (fun g2 hg2 => hhead g2 hg2)
        rw [this]
        show (if targetKey g = resolveKey (normalizeFilePath g.path)
              then some (sanitizeContent g.content (normalizeFilePath g.path))
              else fs (targetKey g)) = some g.content
        rw [if_pos (show targetKey g = resolveKey (normalizeFilePath g.path) from rfl)]
        rfl
      · rw [applyLoop_cons, hstep]
        exact hmem g hg2
    · intro k hk
      rw [applyLoop_cons, hstep]
      have := hunch k (fun g hg => hk g (List.mem_cons_of_mem f hg))
      rw [this]
      show (if k = resolveKey (normalizeFilePath f.path)
            then some (sanitizeContent f.content (normalizeFilePath f.path))
            else fs k) = fs k
      rw [if_neg (show ¬ (k = resolveKey (normalizeFilePath f.path)) from
        hk f (List.mem_cons_self f rest))]

/-- C6 (counterexample): the claim quantifies over every batch passing
validation and path policy, but when a target file already exists, the
first run reports it in filesUpdated, not filesCreated. -/
theorem c6_counterexample :
    requestIssues [(⟨"src/a.txt", "hi"⟩ : FileRec)] = [] ∧
    isPathSafe (normalizeFilePath "src/a.txt") = PathVerdict.safe ∧
    (postApply noFaults
        (fun k => if k = "/workspace/project/src/a.txt" then some "old" else none)
        [⟨"src/a.txt", "hi"⟩] none).2.1 =
      some { filesCreated := [], filesUpdated := ["src/a.txt"], filesSkipped := [],
             errors := [], packages := [] } :=
  ⟨by decide, by decide, by decide⟩

/-- C6 (amended): for a validated, policy-safe batch whose resolved
targets are pairwise distinct and none of which exists yet, applying
the batch twice against the same project root reports every normalized
path in filesCreated on the first run and the same paths in
filesUpdated (and none in filesCreated) on the second, with no errors,
and the on-disk contents after the second run are identical to those
after the first (full overwrite, no merge). -/
theorem c6_amended_idempotence (fs : FS) (files : List FileRec)
    (pkgs : Option (List String))
    (hval : requestIssues files = [])
    (hsafe : ∀ f ∈ files, isPathSafe (normalizeFilePath f.path) = PathVerdict.safe)
    (hfresh : ∀ f ∈ files, fs (targetKey f) = none)
    (hdist : List.Pairwise (fun f g => targetKey f ≠ targetKey g) files) :
    ∃ res1 res2,
      (postApply noFaults fs files pkgs).2.1 = some res1 ∧
      (postApply noFaults (postApply noFaults fs files pkgs).1 files pkgs).2.1 = some res2 ∧
      res1.filesCreated = files.map (fun f => normalizeFilePath f.path) ∧
      res1.filesUpdated = [] ∧
      res1.errors = [] ∧
      res2.filesUpdated = files.map (fun f => normalizeFilePath f.path) ∧
      res2.filesCreated = [] ∧
      res2.errors = [] ∧
      (∀ k, (postApply noFaults (postApply noFaults fs files pkgs).1 files pkgs).1 k =
            (postApply noFaults fs files pkgs).1 k) := by
  obtain ⟨hc1, hu1, he1, hmem1, hunch1⟩ :=
    applyLoop_fresh files fs (applyRes0 files pkgs) 1 files.length hsafe hfresh hdist
  have hfs1 : (postApply noFaults fs files pkgs).1 =
      (applyLoop noFaults fs (applyRes0 files pkgs) files 1 files.length).1 := by
    rw [postApply_ok noFaults fs files pkgs hval]
    rfl
  have hexist : ∀ f ∈ files,
      (((applyLoop noFaults fs (applyRes0 files pkgs) files 1 files.length).1)
        (targetKey f)).isSome = true := by
    intro f hf
    rw [hmem1 f hf]
    rfl
  obtain ⟨hu2, hc2, he2, hmem2, hunch2⟩ :=
    applyLoop_existing files
      (applyLoop noFaults fs (applyRes0 files pkgs) files 1 files.length).1
      (applyRes0 files pkgs) 1 files.length hsafe hexist hdist
  refine ⟨(applyLoop noFaults fs (applyRes0 files pkgs) files 1 files.length).2.1,
          (applyLoop noFaults
            (applyLoop noFaults fs (applyRes0 files pkgs) files 1 files.length).1
            (applyRes0 files pkgs) files 1 files.length).2.1,
          ?_, ?_, ?_, ?_, ?_, ?_, ?_, ?_, ?_⟩
  · rw [postApply_ok noFaults fs files pkgs hval]
    rfl
  · rw [postApply_ok noFaults fs files pkgs hval]
    rw [postApply_ok noFaults _ files pkgs hval]
    rfl
  · rw [hc1]
    rfl
  · rw [hu1]
    rfl
  · rw [he1]
    rfl
  · rw [hu2]
    rfl
  · rw [hc2]
    rfl
  · rw [he2]
    rfl
  · intro k
    rw [postApply_ok noFaults fs files pkgs hval]
    rw [postApply_ok noFaults _ files pkgs hval]
    show (applyLoop noFaults
        (applyLoop noFaults fs (applyRes0 files pkgs) files 1 files.length).1
        (applyRes0 files pkgs) files 1 files.length).1 k =
      (applyLoop noFaults fs (applyRes0 files pkgs) files 1 files.length).1 k
    by_cases hk : ∃ f ∈ files, k = targetKey f
    · obtain ⟨f, hf, hkey⟩ := hk
      subst hkey
      rw [hmem2 f hf, hmem1 f hf]
    · push_neg at hk
      exact hunch2 k (fun f hf => hk f hf)

theorem c6_witness :
    requestIssues [(⟨"src/a.txt", "hi"⟩ : FileRec)] = [] ∧
    (∀ f ∈ [(⟨"src/a.txt", "hi"⟩ : FileRec)],
      isPathSafe (normalizeFilePath f.path) = PathVerdict.safe) ∧
    (∀ f ∈ [(⟨"src/a.txt", "hi"⟩ : FileRec)], emptyFS (targetKey f) = none) ∧
    List.Pairwise (fun f g => targetKey f ≠ targetKey g) [(⟨"src/a.txt", "hi"⟩ : FileRec)] ∧
    (∃ res1 res2,
      (postApply noFaults emptyFS [(⟨"src/a.txt", "hi"⟩ : FileRec)] none).2.1 = some res1 ∧
      (postApply noFaults
        (postApply noFaults emptyFS [(⟨"src/a.txt", "hi"⟩ : FileRec)] none).1
        [(⟨"src/a.txt", "hi"⟩ : FileRec)] none).2.1 = some res2 ∧
      res1.filesCreated =
        [(⟨"src/a.txt", "hi"⟩ : FileRec)].map (fun f => normalizeFilePath f.path) ∧
      res1.filesUpdated = [] ∧
      res1.errors = [] ∧
      res2.filesUpdated =
        [(⟨"src/a.txt", "hi"⟩ : FileRec)].map (fun f => normalizeFilePath f.path) ∧
      res2.filesCreated = [] ∧
      res2.errors = [] ∧
      (∀ k, (postApply noFaults
          (postApply noFaults emptyFS [(⟨"src/a.txt", "hi"⟩ : FileRec)] none).1
          [(⟨"src/a.txt", "hi"⟩ : FileRec)] none).1 k =
        (postApply noFaults emptyFS [(⟨"src/a.txt", "hi"⟩ : FileRec)] none).1 k)) :=
  ⟨by decide, by decide, by decide, by simp,
   c6_amended_idempotence emptyFS [⟨"src/a.txt", "hi"⟩] none
     (by decide) (by decide) (by decide) (by simp)⟩
